import Mathlib

/-!
# wingbits-to-mqtt: a shallow embedding of `addons/wingbits-to-mqtt/main.go`

The Go program scrapes Prometheus text endpoints and republishes every sample
on an MQTT broker together with Home Assistant discovery records.

Modelling conventions.

* A Go `string` is a list of Unicode code points (`Str`).  Every index the
  program computes is used only to slice the same string again, and the
  characters it searches for are ASCII, so offsets are counted in code points.
* A Go `map[string]V` is an association list with unique keys (`GoMap V`).
* The MQTT client is an explicit state: the list of messages handed to
  `Publish`, and an environment function giving the token of the `i`-th publish.
* HTTP responses and file reads are inputs supplied by the environment.
* `cases.Title(language.English).String` comes from `golang.org/x/text`; it is a
  parameter `title` of the functions that call it.
* Go `error` values are data (`ParseError`, `PublishError`, ...) instead of
  formatted text.
* Log output is not modelled, except for the four counters of the summary line
  of `publishMetrics`.
-/

namespace WingbitsToMqtt

/-- A Go string, as its sequence of code points. -/
abbrev Str := List Char

/-- Results of fallible functions can be compared when errors and values can. -/
instance instDecidableEqExcept {ε α : Type} [DecidableEq ε] [DecidableEq α] :
    DecidableEq (Except ε α)
  | .ok a, .ok b => if h : a = b then isTrue (by rw [h]) else isFalse (fun e => h (by cases e; rfl))
  | .error a, .error b =>
    if h : a = b then isTrue (by rw [h]) else isFalse (fun e => h (by cases e; rfl))
  | .ok _, .error _ => isFalse (fun e => by cases e)
  | .error _, .ok _ => isFalse (fun e => by cases e)

/-! ## Library functions of the Go standard library used by the program -/

/-- The function `unicode.IsSpace`, the white space removed by `strings.TrimSpace`. -/
def isSpace (c : Char) : Bool :=
  let n := c.toNat
  n == 0x09 || n == 0x0A || n == 0x0B || n == 0x0C || n == 0x0D || n == 0x20 ||
  n == 0x85 || n == 0xA0 || n == 0x1680 || (0x2000 ≤ n && n ≤ 0x200A) ||
  n == 0x2028 || n == 0x2029 || n == 0x202F || n == 0x205F || n == 0x3000

/-- The function `strings.TrimSpace`. -/
def trimSpace (s : Str) : Str :=
  (s.dropWhile isSpace).rdropWhile isSpace

/-- The call `strings.Split(s, "\n")`: never empty, one more element than there are newlines. -/
def splitLines : Str → List Str
  | [] => [[]]
  | c :: cs =>
    if c = '\n' then [] :: splitLines cs
    else
      match splitLines cs with
      | [] => [[c]]
      | l :: ls => (c :: l) :: ls

/-- The call `strings.HasPrefix(s, p)`. -/
def startsWith (s p : Str) : Bool :=
  p.isPrefixOf s

/-- The call `strings.TrimPrefix(s, p)`. -/
def trimLeading (s p : Str) : Str :=
  if startsWith s p then s.drop p.length else s

/-- The call `strings.Contains(s, sub)`. -/
def contains (s sub : Str) : Bool :=
  s.tails.any (fun t => sub.isPrefixOf t)

/-- The call `strings.ReplaceAll(s, old, new)` for one-character `old` and `new`. -/
def replaceAll (s : Str) (old new : Char) : Str :=
  s.map (fun c => if c = old then new else c)

/-- The call `strings.Index(s, c)` for a one-character needle: `-1` when absent. -/
def index (s : Str) (c : Char) : Int :=
  if c ∈ s then (s.indexOf c : Nat) else -1

/-- The call `strings.LastIndex(s, c)` for a one-character needle: `-1` when absent. -/
def lastIndex (s : Str) (c : Char) : Int :=
  if c ∈ s then ((s.length - 1 - s.reverse.indexOf c : Nat) : Int) else -1

/-- The slice `s[:i]`. -/
def sliceTo (s : Str) (i : Int) : Str :=
  s.take i.toNat

/-- The slice `s[i:]`. -/
def sliceFrom (s : Str) (i : Int) : Str :=
  s.drop i.toNat

/-! ## Go maps -/

/-- A Go `map[string]V`: an association list in which every key occurs once. -/
abbrev GoMap (V : Type) := List (Str × V)

/-- The lookup `v, ok := m[k]`. -/
def GoMap.get? {V : Type} (m : GoMap V) (k : Str) : Option V :=
  List.lookup k m

/-- The assignment `m[k] = v`. -/
def GoMap.set {V : Type} (m : GoMap V) (k : Str) (v : V) : GoMap V :=
  (k, v) :: m.filter (fun e => e.1 != k)

/-! ## Data model -/

/-- One element of `Config.Prometheus.Sources`. -/
structure Source where
  url : Str
  label : Str
deriving DecidableEq, Repr

/-- The configuration `Config`, with the nested structs flattened. -/
structure Config where
  sources : List Source
  broker : Str
  clientID : Str
  topicBase : Str
  username : Str
  password : Str
  fetchIntervalSeconds : Int
deriving DecidableEq, Repr

/-- The struct `MetricInfo`. -/
structure MetricInfo where
  help : Str
  type : Str
deriving DecidableEq, Repr

/-- The zero value of `MetricInfo`, read from a map that has no entry. -/
def MetricInfo.zero : MetricInfo := ⟨[], []⟩

/-- The struct `HassDevice`. -/
structure HassDevice where
  identifiers : List Str
  name : Str
  manufacturer : Str
  model : Str
deriving DecidableEq, Repr

/-- The struct `HassDiscoveryConfig`. -/
structure HassDiscoveryConfig where
  name : Str
  stateTopic : Str
  uniqueID : Str
  device : HassDevice
  unitOfMeasurement : Str
  icon : Str
deriving DecidableEq, Repr

/-! ## The MQTT client -/

/-- What is handed to `Publish` as payload: the value text of a sample, or the
discovery record that `json.Marshal` serialises. -/
inductive Payload where
  | text (value : Str)
  | json (config : HassDiscoveryConfig)
deriving DecidableEq, Repr

/-- One call of `mqttClient.Publish(topic, qos, retained, payload)`. -/
structure Message where
  topic : Str
  qos : Nat
  retained : Bool
  payload : Payload
deriving DecidableEq, Repr

/-- The token returned by `Publish`, as far as the program looks at it:
`waitTimeout` is the result of `token.WaitTimeout(2*time.Second)` and `error`
the result of `token.Error()` (`none` is `nil`). -/
structure Token where
  waitTimeout : Bool
  error : Option Str
deriving DecidableEq, Repr

/-- The MQTT client: the tokens the broker side will answer with, by position of
the publish, and the messages published so far, oldest first. -/
structure MqttClient where
  replies : Nat → Token
  sent : List Message

/-- The method `mqttClient.Publish`. -/
def MqttClient.Publish (c : MqttClient) (topic : Str) (qos : Nat) (retained : Bool)
    (payload : Payload) : MqttClient × Token :=
  ({ c with sent := c.sent ++ [⟨topic, qos, retained, payload⟩] }, c.replies c.sent.length)

/-- The struct `MetricProcessor`; the two compiled patterns are the functions
`helpRegex` and `typeRegex` below. -/
structure MetricProcessor where
  config : Config
  publishedConfigs : GoMap Bool
  mqttClient : MqttClient

/-- The test `mp.publishedConfigs[id]`: `false` for a missing key. -/
def MetricProcessor.isPublished (mp : MetricProcessor) (id : Str) : Bool :=
  (mp.publishedConfigs.get? id).getD false

/-! ## The two patterns of `NewMetricProcessor` -/

/-- The class `\s` of Go regular expressions: tab, newline, form feed, carriage return, space. -/
def isReSpace (c : Char) : Bool :=
  let n := c.toNat
  n == 0x09 || n == 0x0A || n == 0x0C || n == 0x0D || n == 0x20

/-- The class `\w` of Go regular expressions: ASCII letters, digits and underscore. -/
def isWord (c : Char) : Bool :=
  let n := c.toNat
  (0x30 ≤ n && n ≤ 0x39) || (0x41 ≤ n && n ≤ 0x5A) || (0x61 ≤ n && n ≤ 0x7A) || n == 0x5F

/-- Match a literal at the start of the input and return what follows it. -/
def matchLit (lit s : Str) : Option Str :=
  if lit.isPrefixOf s then some (s.drop lit.length) else none

/-- Match `\s+` at the start of the input, greedily, and return what follows it. -/
def matchSpaces (s : Str) : Option Str :=
  match s with
  | [] => none
  | c :: _ => if isReSpace c then some (s.dropWhile isReSpace) else none

/-- Match `(\w+)` at the start of the input, greedily: the word and what follows it. -/
def matchWord (s : Str) : Option (Str × Str) :=
  match s with
  | [] => none
  | c :: _ => if isWord c then some (s.takeWhile isWord, s.dropWhile isWord) else none

/-- The pattern `^#\s+HELP\s+(\w+)\s+(.*)$`: submatches 1 and 2 of
`FindStringSubmatch`, `none` when the line does not match.  Each `\s+` and the
`\w+` are followed by a character outside their class, so the greedy match is
the only one; `.` matches everything but a newline. -/
def helpRegex (line : Str) : Option (Str × Str) := do
  let r ← matchLit ['#'] line
  let r ← matchSpaces r
  let r ← matchLit "HELP".toList r
  let r ← matchSpaces r
  let (name, r) ← matchWord r
  let r ← matchSpaces r
  if r.all (fun c => c != '\n') then some (name, r) else none

/-- The pattern `^#\s+TYPE\s+(\w+)\s+(\w+)$`: submatches 1 and 2 of
`FindStringSubmatch`, `none` when the line does not match. -/
def typeRegex (line : Str) : Option (Str × Str) := do
  let r ← matchLit ['#'] line
  let r ← matchSpaces r
  let r ← matchLit "TYPE".toList r
  let r ← matchSpaces r
  let (name, r) ← matchWord r
  let r ← matchSpaces r
  let (type, r) ← matchWord r
  if r.isEmpty then some (name, type) else none

/-! ## Parsing -/

/-- The body of the loop of `collectMetadata`, for one line of the scrape. -/
def collectLine (metricMetadata : GoMap MetricInfo) (line : Str) : GoMap MetricInfo :=
  let line := trimSpace line
  match helpRegex line with
  | some (metricName, helpText) =>
    let info := (metricMetadata.get? metricName).getD MetricInfo.zero
    metricMetadata.set metricName { info with help := helpText }
  | none =>
    match typeRegex line with
    | some (metricName, metricType) =>
      let info := (metricMetadata.get? metricName).getD MetricInfo.zero
      metricMetadata.set metricName { info with type := metricType }
    | none => metricMetadata

/-- The method `collectMetadata`. -/
def collectMetadata (metricsData : Str) : GoMap MetricInfo :=
  (splitLines metricsData).foldl collectLine []

/-- The two errors of `parseMetricLine`: "no value found in line" and
"no metric name found in line". -/
inductive ParseError where
  | noValue
  | noMetricName
deriving DecidableEq, Repr

/-- The method `parseMetricLine`: the metric name and the value text of a line. -/
def parseMetricLine (line : Str) : Except ParseError (Str × Str) :=
  let labelStartIndex := index line '\x7b'
  let firstSpaceIndex := index line ' '
  let lastSpaceIndex := lastIndex line ' '
  if lastSpaceIndex = -1 then
    .error .noValue
  else
    let value := sliceFrom line (lastSpaceIndex + 1)
    if labelStartIndex ≠ -1 ∧ (firstSpaceIndex = -1 ∨ labelStartIndex < firstSpaceIndex) then
      .ok (sliceTo line labelStartIndex, value)
    else if firstSpaceIndex ≠ -1 then
      .ok (sliceTo line firstSpaceIndex, value)
    else
      .error .noMetricName

/-- The method `sanitizeMetricName`. -/
def sanitizeMetricName (name : Str) : Str :=
  let result := replaceAll name '.' '_'
  replaceAll result '-' '_'

/-- The method `determineIcon`. -/
def determineIcon (metricName metricType : Str) : Str :=
  if contains metricName "connection".toList then
    "mdi:connection".toList
  else if contains metricName "total".toList || metricType == "counter".toList then
    "mdi:counter".toList
  else if contains metricName "version".toList then
    "mdi:tag".toList
  else
    "mdi:gauge".toList

/-! ## Publishing -/

/-- The error of `publishDiscoveryConfig`: "failed to publish config: ..." with
the error of the token. -/
inductive PublishError where
  | publishConfig (cause : Str)
deriving DecidableEq, Repr

/-- The identifier `labeledObjectID` that `publishMetrics` and
`publishDiscoveryConfig` both compute: `fmt.Sprintf("%s_%s", sourceLabel, objectID)`
with `objectID := mp.sanitizeMetricName(metricName)`. -/
def labeledObjectID (sourceLabel metricName : Str) : Str :=
  sourceLabel ++ "_".toList ++ sanitizeMetricName metricName

/-- The topic `fmt.Sprintf("%s%s/config", mp.config.MQTT.TopicBase, labeledObjectID)`. -/
def configTopic (config : Config) (id : Str) : Str :=
  config.topicBase ++ id ++ "/config".toList

/-- The topic `fmt.Sprintf("%s%s/state", mp.config.MQTT.TopicBase, labeledObjectID)`. -/
def stateTopic (config : Config) (id : Str) : Str :=
  config.topicBase ++ id ++ "/state".toList

/-- The record `configPayload` built by `publishDiscoveryConfig`. -/
def discoveryPayload (title : Str → Str) (config : Config)
    (metricName metricType sourceLabel : Str) : HassDiscoveryConfig :=
  let objectID := sanitizeMetricName metricName
  let id := labeledObjectID sourceLabel metricName
  let friendlyName := replaceAll (trimLeading metricName "wingbits_".toList) '_' ' '
  let friendlyName := title friendlyName
  let friendlyName := if friendlyName.length = 0 then objectID else friendlyName
  let icon := determineIcon metricName metricType
  { name := "Wingbits ".toList ++ title sourceLabel ++ " ".toList ++ friendlyName
    stateTopic := stateTopic config id
    uniqueID := "wingbits_".toList ++ sourceLabel ++ "_".toList ++ objectID
    unitOfMeasurement := []
    icon := icon
    device :=
      { identifiers := [config.clientID ++ "_".toList ++ sourceLabel]
        name := "Wingbits ".toList ++ title sourceLabel
        manufacturer := "Wingbits".toList
        model := "Prometheus Forwarder".toList } }

/-- The method `publishDiscoveryConfig`.  `json.Marshal` cannot fail on a record
of strings, so the only error is the one of the token; `helpText` is not used
by the Go code either. -/
def publishDiscoveryConfig (title : Str → Str) (mp : MetricProcessor)
    (metricName _helpText metricType sourceLabel : Str) :
    MetricProcessor × Except PublishError Unit :=
  let id := labeledObjectID sourceLabel metricName
  let payload := discoveryPayload title mp.config metricName metricType sourceLabel
  let (client, token) := mp.mqttClient.Publish (configTopic mp.config id) 1 true (.json payload)
  let mp := { mp with mqttClient := client }
  if token.waitTimeout && token.error.isSome then
    (mp, .error (.publishConfig (token.error.getD [])))
  else
    (mp, .ok ())

/-- The local variables of `publishMetrics` that live across loop iterations:
the processor and the four counters of the summary log line. -/
structure LoopState where
  mp : MetricProcessor
  publishedStateCount : Nat
  skippedLineCount : Nat
  configAttemptCount : Nat
  configSuccessCount : Nat

/-- The discovery part of the loop body of `publishMetrics` (the `if` on
`mp.publishedConfigs[labeledObjectID]`). -/
def publishConfigIfNeeded (title : Str → Str) (metricMetadata : GoMap MetricInfo)
    (sourceLabel metricName : Str) (st : LoopState) : LoopState :=
  let id := labeledObjectID sourceLabel metricName
  if !st.mp.isPublished id then
    let st := { st with configAttemptCount := st.configAttemptCount + 1 }
    match metricMetadata.get? metricName with
    | some info =>
      match publishDiscoveryConfig title st.mp metricName info.help info.type sourceLabel with
      | (mp, .error _) => { st with mp := mp }
      | (mp, .ok _) =>
        { st with
          mp := { mp with publishedConfigs := mp.publishedConfigs.set id true }
          configSuccessCount := st.configSuccessCount + 1 }
    | none => st
  else st

/-- The body of the loop of `publishMetrics`, for one line of the scrape. -/
def publishLine (title : Str → Str) (metricMetadata : GoMap MetricInfo) (sourceLabel : Str)
    (st : LoopState) (line : Str) : LoopState :=
  let line := trimSpace line
  if line = [] ∨ startsWith line ['#'] then
    { st with skippedLineCount := st.skippedLineCount + 1 }
  else
    match parseMetricLine line with
    | .error _ => { st with skippedLineCount := st.skippedLineCount + 1 }
    | .ok (metricName, value) =>
      let st := publishConfigIfNeeded title metricMetadata sourceLabel metricName st
      let id := labeledObjectID sourceLabel metricName
      let (client, token) :=
        st.mp.mqttClient.Publish (stateTopic st.mp.config id) 0 false (.text value)
      let st := { st with mp := { st.mp with mqttClient := client } }
      if token.error.isSome then st
      else { st with publishedStateCount := st.publishedStateCount + 1 }

/-- The loop of `publishMetrics`, with the counters it logs at the end. -/
def publishMetricsLoop (title : Str → Str) (mp : MetricProcessor) (metricsData : Str)
    (metricMetadata : GoMap MetricInfo) (sourceLabel : Str) : LoopState :=
  (splitLines metricsData).foldl (publishLine title metricMetadata sourceLabel) ⟨mp, 0, 0, 0, 0⟩

/-- The method `publishMetrics`: the processor after the call. -/
def publishMetrics (title : Str → Str) (mp : MetricProcessor) (metricsData : Str)
    (metricMetadata : GoMap MetricInfo) (sourceLabel : Str) : MetricProcessor :=
  (publishMetricsLoop title mp metricsData metricMetadata sourceLabel).mp

/-! ## Fetching and the poll loop -/

/-- What `http.Get` and `io.ReadAll` give for one source: a transport error, or
a response with its status code and the body or the error of reading it. -/
inductive HttpResult where
  | transportError (cause : Str)
  | response (statusCode : Nat) (body : Except Str Str)
deriving Repr

/-- The three errors of `fetchPrometheusMetrics`. -/
inductive FetchError where
  | fetch (cause : Str)
  | statusCode (code : Nat)
  | readBody (cause : Str)
deriving DecidableEq, Repr

/-- The method `fetchPrometheusMetrics`, given what the HTTP client returns. -/
def fetchPrometheusMetrics (http : HttpResult) : Except FetchError Str :=
  match http with
  | .transportError e => .error (.fetch e)
  | .response statusCode body =>
    if statusCode ≠ 200 then .error (.statusCode statusCode)
    else
      match body with
      | .error e => .error (.readBody e)
      | .ok bodyBytes => .ok bodyBytes

/-- The method `processMetrics`, given what the HTTP client returns for the source. -/
def processMetrics (title : Str → Str) (mp : MetricProcessor) (http : HttpResult)
    (sourceLabel : Str) : MetricProcessor :=
  match fetchPrometheusMetrics http with
  | .error _ => mp
  | .ok metricsData =>
    let metricMetadata := collectMetadata metricsData
    publishMetrics title mp metricsData metricMetadata sourceLabel

/-- The loop of `processAllSources` over a list of sources; `http i` is what the
HTTP client returns for the source at position `i` of the configuration. -/
def processSources (title : Str → Str) (http : Nat → HttpResult) :
    MetricProcessor → Nat → List Source → MetricProcessor
  | mp, _, [] => mp
  | mp, i, source :: rest =>
    processSources title http (processMetrics title mp (http i) source.label) (i + 1) rest

/-- The method `processAllSources`: one sweep over the configured sources. -/
def processAllSources (title : Str → Str) (mp : MetricProcessor) (http : Nat → HttpResult) :
    MetricProcessor :=
  processSources title http mp 0 mp.config.sources

/-- The first `n` sweeps of the method `Run` (the initial run and the runs on
the first `n - 1` ticks); `http k i` is what the HTTP client returns in sweep
`k` for source `i`. The call `time.NewTicker` that precedes the initial run is
not modelled: it panics when the interval is not positive (or overflows
`time.Duration`), and then the program makes no sweep at all, so the model has
every trace of the program and some more. -/
def Run (title : Str → Str) (http : Nat → Nat → HttpResult) :
    MetricProcessor → Nat → MetricProcessor
  | mp, 0 => mp
  | mp, n + 1 => processAllSources title (Run title http mp n) (http n)

/-- The function `connectMQTT`, given the outcome of the connection attempt:
an error, or the tokens the connected broker will answer with. -/
def connectMQTT (outcome : Except Str (Nat → Token)) : Except Str MqttClient :=
  match outcome with
  | .error e => .error e
  | .ok replies => .ok ⟨replies, []⟩

/-- The function `NewMetricProcessor`. -/
def NewMetricProcessor (config : Config) (outcome : Except Str (Nat → Token)) :
    Except Str MetricProcessor :=
  match connectMQTT outcome with
  | .error e => .error e
  | .ok mqttClient => .ok { config := config, publishedConfigs := [], mqttClient := mqttClient }

/-! ## Configuration -/

/-- The errors of `validateConfig`, in the order the function checks them. -/
inductive ConfigError where
  | noSources
  | urlRequired (i : Nat)
  | labelRequired (i : Nat)
  | brokerRequired
  | clientIDRequired
  | topicBaseRequired
  | fetchIntervalNotPositive
deriving DecidableEq, Repr

/-- The loop of `validateConfig` over the sources, from position `i` on. -/
def validateSources : Nat → List Source → Except ConfigError Unit
  | _, [] => .ok ()
  | i, source :: rest =>
    if source.url = [] then .error (.urlRequired i)
    else if source.label = [] then .error (.labelRequired i)
    else validateSources (i + 1) rest

/-- The function `validateConfig`. -/
def validateConfig (config : Config) : Except ConfigError Unit :=
  if config.sources.length = 0 then .error .noSources
  else
    match validateSources 0 config.sources with
    | .error e => .error e
    | .ok _ =>
      if config.broker = [] then .error .brokerRequired
      else if config.clientID = [] then .error .clientIDRequired
      else if config.topicBase = [] then .error .topicBaseRequired
      else if config.fetchIntervalSeconds ≤ 0 then .error .fetchIntervalNotPositive
      else .ok ()

/-- What the file system gives for one configuration file: it does not exist,
it cannot be read, or its content with the result of unmarshalling it. -/
inductive ConfigFile where
  | missing
  | unreadable (cause : Str)
  | content (parsed : Except Str Config)

/-- The errors of `loadConfig`. -/
inductive LoadError where
  | readOptions (cause : Str)
  | parseOptions (cause : Str)
  | notFound
  | readConfig (cause : Str)
  | parseConfig (cause : Str)
  | invalid (cause : ConfigError)
deriving DecidableEq, Repr

/-- The function `loadConfig`, given `/data/options.json` and the YAML file at
the configuration path. -/
def loadConfig (options yaml : ConfigFile) : Except LoadError Config :=
  match options with
  | .unreadable e => .error (.readOptions e)
  | .content (.error e) => .error (.parseOptions e)
  | .content (.ok config) =>
    let config :=
      if config.fetchIntervalSeconds ≤ 0 then { config with fetchIntervalSeconds := 60 }
      else config
    match validateConfig config with
    | .error e => .error (.invalid e)
    | .ok _ => .ok config
  | .missing =>
    match yaml with
    | .missing => .error .notFound
    | .unreadable e => .error (.readConfig e)
    | .content (.error e) => .error (.parseConfig e)
    | .content (.ok config) =>
      match validateConfig config with
      | .error e => .error (.invalid e)
      | .ok _ => .ok config

/-! ## Definitions that follow the words of the specification -/

/-- A trimmed line is a sample, in the words of the specification: it is
non-empty, does not start with `#` and contains a space. -/
def isSampleLine (line : Str) : Bool :=
  line != [] && !startsWith line ['#'] && line.contains ' '

/-- The samples of a scrape body, in the words of the specification: the lines
that, after white space trimming, are non-empty, do not start with `#` and
contain a space. -/
def sampleLines (metricsData : Str) : List Str :=
  ((splitLines metricsData).map trimSpace).filter isSampleLine

/-- The identifier of the specification: `sanitize(sourceLabel + "_" + sanitize(metricName))`. -/
def specEntityIdentifier (sourceLabel metricName : Str) : Str :=
  sanitizeMetricName (sourceLabel ++ "_".toList ++ sanitizeMetricName metricName)

/-- A message is a discovery publish for identifier `id`: it goes to the config topic of `id`. -/
def isConfigFor (config : Config) (id : Str) (m : Message) : Bool :=
  m.topic == configTopic config id

/-- The messages a call added to the trace: those after the first `n`. -/
def sentAfter (n : Nat) (mp : MetricProcessor) : List Message :=
  mp.mqttClient.sent.drop n

/-- The state publishes among some messages: those with QoS 0. -/
def statePublishes (ms : List Message) : List Message :=
  ms.filter (fun m => m.qos == 0)

/-! ## The loop of `publishMetrics` without its counters -/

/-- The message `publishDiscoveryConfig` publishes for a metric of a source. -/
def configMessage (title : Str → Str) (config : Config)
    (metricName metricType sourceLabel : Str) : Message :=
  ⟨configTopic config (labeledObjectID sourceLabel metricName), 1, true,
    .json (discoveryPayload title config metricName metricType sourceLabel)⟩

/-- The message `publishMetrics` publishes for the state of a sample. -/
def stateMessage (config : Config) (sourceLabel metricName value : Str) : Message :=
  ⟨stateTopic config (labeledObjectID sourceLabel metricName), 0, false, .text value⟩

/-- The token of a discovery publish makes `publishDiscoveryConfig` return an
error: the wait completed and the token carries an error. -/
def Token.failed (t : Token) : Bool :=
  t.waitTimeout && t.error.isSome

/-- The processor after the discovery part of one loop iteration of `publishMetrics`. -/
def configStep (title : Str → Str) (metricMetadata : GoMap MetricInfo)
    (sourceLabel metricName : Str) (mp : MetricProcessor) : MetricProcessor :=
  (publishConfigIfNeeded title metricMetadata sourceLabel metricName ⟨mp, 0, 0, 0, 0⟩).mp

/-- The processor after the state publish of one loop iteration of `publishMetrics`. -/
def stateStep (sourceLabel metricName value : Str) (mp : MetricProcessor) : MetricProcessor :=
  { mp with
    mqttClient :=
      (mp.mqttClient.Publish (stateTopic mp.config (labeledObjectID sourceLabel metricName))
        0 false (.text value)).1 }

/-- The processor after one loop iteration of `publishMetrics`. -/
def lineStep (title : Str → Str) (metricMetadata : GoMap MetricInfo) (sourceLabel : Str)
    (mp : MetricProcessor) (line : Str) : MetricProcessor :=
  let line := trimSpace line
  if line = [] ∨ startsWith line ['#'] then mp
  else
    match parseMetricLine line with
    | .error _ => mp
    | .ok (metricName, value) =>
      stateStep sourceLabel metricName value
        (configStep title metricMetadata sourceLabel metricName mp)

/-- The state message of one line of a scrape body, if the line is a sample that parses. -/
def lineStateMessages (config : Config) (sourceLabel : Str) (line : Str) : List Message :=
  let line := trimSpace line
  if line = [] ∨ startsWith line ['#'] then []
  else
    match parseMetricLine line with
    | .error _ => []
    | .ok (metricName, value) => [stateMessage config sourceLabel metricName value]

/-! ## Name and value of a sample line, in the words of the specification -/

/-- The name of a sample line in the words of the specification: the text before
the first opening brace when one occurs before the first space, otherwise the
text before the first space. -/
def specName (line : Str) : Str :=
  if '\x7b' ∈ line.takeWhile (fun c => c != ' ') then line.takeWhile (fun c => c != '\x7b')
  else line.takeWhile (fun c => c != ' ')

/-- The value of a sample line in the words of the specification: the text after
the last space. -/
def specValue (line : Str) : Str :=
  (line.reverse.takeWhile (fun c => c != ' ')).reverse

/-! ## The invariant of the discovery cache -/

/-- The invariant of the discovery cache, for the configuration and the broker
replies of a run: a discovery publish whose token did not fail has its
identifier marked published, and a discovery publish for an identifier is
preceded only by failed discovery publishes for it. -/
def DiscoveryInv (config : Config) (replies : Nat → Token) (mp : MetricProcessor) : Prop :=
  mp.config = config ∧ mp.mqttClient.replies = replies ∧
  (∀ i m id, mp.mqttClient.sent[i]? = some m → isConfigFor config id m = true →
    (replies i).failed = false → mp.isPublished id = true) ∧
  (∀ i j mi mj id, i < j → mp.mqttClient.sent[i]? = some mi → mp.mqttClient.sent[j]? = some mj →
    isConfigFor config id mi = true → isConfigFor config id mj = true → (replies i).failed = true)

/-! ## Metadata of one metric, read off the lines -/

/-- The help text that a line of the body assigns to a metric in `collectMetadata`, if any. -/
def helpFor (name line : Str) : Option Str :=
  match helpRegex (trimSpace line) with
  | some (k, h) => if k = name then some h else none
  | none => none

/-- The type that a line of the body assigns to a metric in `collectMetadata`, if any. -/
def typeFor (name line : Str) : Option Str :=
  match helpRegex (trimSpace line) with
  | some _ => none
  | none =>
    match typeRegex (trimSpace line) with
    | some (k, t) => if k = name then some t else none
    | none => none

/-- The map entry made of the last help text and the last type assigned to a metric. -/
def mergeInfo : Option Str → Option Str → Option MetricInfo
  | none, none => none
  | h, t => some ⟨h.getD [], t.getD []⟩

/-! ## Concrete inputs for the examples -/

/-- A configuration with one source labelled `station1`. -/
def exampleConfig : Config :=
  { sources := [⟨"http://localhost:8088/metrics".toList, "station1".toList⟩]
    broker := "tcp://localhost:1883".toList
    clientID := "wingbits".toList
    topicBase := "homeassistant/sensor/".toList
    username := []
    password := []
    fetchIntervalSeconds := 60 }

/-- A broker that acknowledges every publish in time and without error. -/
def ackReplies : Nat → Token := fun _ => ⟨true, none⟩

/-- A broker that never acknowledges within the wait: `WaitTimeout` returns false. -/
def timeoutReplies : Nat → Token := fun _ => ⟨false, none⟩

/-- A scrape body with metadata, two samples of one metric and a malformed line. -/
def exampleBody : Str :=
  ("# HELP wingbits_gps_fix GPS fix status\n# TYPE wingbits_gps_fix gauge\n" ++
    "wingbits_gps_fix 1\nmalformed_line_no_space\nwingbits_gps_fix 0").toList

/-- An HTTP client that answers every request with `exampleBody`. -/
def exampleHttp : Nat → Nat → HttpResult := fun _ _ => .response 200 (.ok exampleBody)

/-- A freshly constructed processor for `exampleConfig` and the given broker. -/
def exampleProcessor (replies : Nat → Token) : MetricProcessor :=
  ⟨exampleConfig, [], ⟨replies, []⟩⟩

/-- The discovery message for the metric of `exampleBody` at source `station1`. -/
def exampleConfigMessage : Message :=
  configMessage id exampleConfig "wingbits_gps_fix".toList "gauge".toList "station1".toList

/-- The scrape body of the specification's parsing example. -/
def gpsFixBody : Str :=
  ("# HELP wingbits_gps_fix GPS fix status\n# TYPE wingbits_gps_fix gauge\n" ++
    "wingbits_gps_fix 1").toList

/-! ## A sweep without one of its sources -/

/-- The HTTP results of a sweep from which the source at position `k` is left out. -/
def skipAt (k : Nat) (http : Nat → HttpResult) : Nat → HttpResult :=
  fun i => if i < k then http i else http (i + 1)

/-- The processor with another list of configured sources, all else the same. -/
def withSources (sources : List Source) (mp : MetricProcessor) : MetricProcessor :=
  { mp with config := { mp.config with sources := sources } }

/-! ## Concrete inputs for sweeps, configuration files and metric names -/

/-- A configuration like `exampleConfig` with a second source `station2` in front. -/
def twoSourceProcessor : MetricProcessor :=
  withSources
    [⟨"http://10.0.0.2:8088/metrics".toList, "station2".toList⟩,
     ⟨"http://localhost:8088/metrics".toList, "station1".toList⟩]
    (exampleProcessor ackReplies)

/-- A sweep in which the first source answers with status 503 and the others with `exampleBody`. -/
def firstFailsHttp : Nat → HttpResult :=
  fun i => if i = 0 then .response 503 (.ok []) else .response 200 (.ok exampleBody)

/-- The configuration `exampleConfig` with the fetch interval left unset (0). -/
def unsetIntervalConfig : Config :=
  { exampleConfig with fetchIntervalSeconds := 0 }

/-- A scrape body whose metric name has characters outside `[0-9A-Za-z_]`. -/
def dottedNameBody : Str :=
  ("# HELP wingbits.altitude-ft Altitude\n# TYPE wingbits.altitude-ft gauge\n" ++
    "wingbits.altitude-ft 1000").toList

/-- A scrape body with metadata for `a_b` and two samples, `a.b` and `a_b`, whose
names sanitize to the same string. -/
def collidingNameBody : Str :=
  "# HELP a_b x\n# TYPE a_b gauge\na.b 1\na_b 2".toList

/-! ## Lemmas on the string functions -/

theorem take_indexOf (s : Str) (c : Char) :
    s.take (s.indexOf c) = s.takeWhile (fun x => x != c) := by
  induction s with
  | nil => simp
  | cons a t ih =>
    by_cases h : a = c
    · subst h; simp [List.takeWhile]
    · have h' : (a != c) = true := by simpa using h
      rw [List.indexOf_cons_ne _ h, List.take_succ_cons, List.takeWhile_cons, h', ih]
      simp

theorem indexOf_eq_length_takeWhile (s : Str) (c : Char) :
    s.indexOf c = (s.takeWhile (fun x => x != c)).length := by
  induction s with
  | nil => simp
  | cons a t ih =>
    by_cases h : a = c
    · subst h; simp [List.takeWhile]
    · have h' : (a != c) = true := by simpa using h
      rw [List.indexOf_cons_ne _ h, List.takeWhile_cons, h', ih]
      simp

theorem mem_takeWhile_ne_iff (s : Str) (a b : Char) (hab : a ≠ b) :
    a ∈ s.takeWhile (fun x => x != b) ↔ a ∈ s ∧ s.indexOf a < s.indexOf b := by
  induction s with
  | nil => simp
  | cons x t ih =>
    by_cases hxb : x = b
    · subst hxb
      simp [List.takeWhile]
    · have h' : (x != b) = true := by simpa using hxb
      rw [List.takeWhile_cons, h', List.indexOf_cons_ne _ hxb]
      by_cases hxa : x = a
      · subst hxa; simp
      · rw [List.indexOf_cons_ne _ hxa]
        simp only [List.mem_cons, ih, if_true]
        constructor
        · rintro (h | h)
          · exact absurd h.symm hxa
          · exact ⟨Or.inr h.1, by omega⟩
        · rintro ⟨h | h, h2⟩
          · exact absurd h.symm hxa
          · exact Or.inr ⟨h, by omega⟩

theorem drop_lastIndex (s : Str) (c : Char) (h : c ∈ s) :
    s.drop (s.length - 1 - s.reverse.indexOf c + 1) =
      (s.reverse.takeWhile (fun x => x != c)).reverse := by
  have hlt : s.reverse.indexOf c < s.reverse.length :=
    List.indexOf_lt_length.mpr (List.mem_reverse.mpr h)
  rw [← take_indexOf]
  rw [List.length_reverse] at hlt
  have e : s.length - 1 - s.reverse.indexOf c + 1 = s.length - s.reverse.indexOf c := by omega
  rw [e, List.reverse_take, List.reverse_reverse, List.length_reverse]

theorem index_eq (s : Str) (c : Char) (h : c ∈ s) : index s c = (s.indexOf c : Nat) := by
  simp [index, h]

theorem index_eq_neg_one_iff (s : Str) (c : Char) : index s c = -1 ↔ c ∉ s := by
  unfold index
  split_ifs with h
  · simp [h]
  · simp [h]

theorem lastIndex_eq_neg_one_iff (s : Str) (c : Char) : lastIndex s c = -1 ↔ c ∉ s := by
  unfold lastIndex
  split_ifs with h
  · simp [h]
  · simp [h]

theorem parseMetricLine_eq (line : Str) (h : ' ' ∈ line) :
    parseMetricLine line = .ok (specName line, specValue line) := by
  have hl : lastIndex line ' ' ≠ -1 := by
    rw [Ne, lastIndex_eq_neg_one_iff]; exact fun hn => hn h
  have hf : index line ' ' ≠ -1 := by
    rw [Ne, index_eq_neg_one_iff]; exact fun hn => hn h
  have hv : sliceFrom line (lastIndex line ' ' + 1) = specValue line := by
    unfold sliceFrom specValue lastIndex
    rw [if_pos h, ← drop_lastIndex line ' ' h]
    congr 1
  have hcond : (index line '\x7b' ≠ -1 ∧ (index line ' ' = -1 ∨ index line '\x7b' < index line ' '))
      ↔ '\x7b' ∈ line.takeWhile (fun c => c != ' ') := by
    rw [mem_takeWhile_ne_iff _ _ _ (by decide), Ne, index_eq_neg_one_iff, not_not]
    constructor
    · rintro ⟨hm, h1 | h2⟩
      · exact absurd h1 hf
      · rw [index_eq _ _ hm, index_eq _ _ h] at h2
        exact ⟨hm, by exact_mod_cast h2⟩
    · rintro ⟨hm, h2⟩
      refine ⟨hm, Or.inr ?_⟩
      rw [index_eq _ _ hm, index_eq _ _ h]
      exact_mod_cast h2
  unfold parseMetricLine
  simp only [if_neg hl, hv]
  by_cases hb : '\x7b' ∈ line.takeWhile (fun c => c != ' ')
  · rw [if_pos (hcond.mpr hb)]
    have hm : '\x7b' ∈ line := ((mem_takeWhile_ne_iff _ _ _ (by decide)).mp hb).1
    simp only [specName, if_pos hb, sliceTo, index_eq _ _ hm, Int.toNat_ofNat, take_indexOf]
  · rw [if_neg (fun hc => hb (hcond.mp hc)), if_pos hf]
    simp only [specName, if_neg hb, sliceTo, index_eq _ _ h, Int.toNat_ofNat, take_indexOf]

theorem parseMetricLine_error_iff (line : Str) :
    (∃ e, parseMetricLine line = .error e) ↔ ' ' ∉ line := by
  constructor
  · rintro ⟨e, he⟩ hm
    rw [parseMetricLine_eq line hm] at he
    cases he
  · intro hn
    refine ⟨.noValue, ?_⟩
    unfold parseMetricLine
    simp only [(lastIndex_eq_neg_one_iff line ' ').mpr hn, if_true]

/-! ## Lemmas on lines and maps -/

theorem splitLines_cons (c : Char) (cs : Str) :
    splitLines (c :: cs) =
      if c = '\n' then [] :: splitLines cs
      else
        match splitLines cs with
        | [] => [[c]]
        | l :: ls => (c :: l) :: ls := by
  rfl

theorem splitLines_ne_nil (s : Str) : splitLines s ≠ [] := by
  cases s with
  | nil => simp [splitLines]
  | cons c cs =>
    rw [splitLines_cons]
    split_ifs
    · simp
    · cases h : splitLines cs <;> simp

theorem splitLines_append (a b : Str) :
    splitLines (a ++ '\n' :: b) = splitLines a ++ splitLines b := by
  induction a with
  | nil => rw [List.nil_append, splitLines_cons]; simp [splitLines]
  | cons c cs ih =>
    rw [List.cons_append, splitLines_cons, splitLines_cons c cs, ih]
    split_ifs with hc
    · simp
    · cases h : splitLines cs with
      | nil => exact absurd h (splitLines_ne_nil cs)
      | cons l ls => simp

theorem splitLines_of_not_mem (s : Str) (h : '\n' ∉ s) : splitLines s = [s] := by
  induction s with
  | nil => simp [splitLines]
  | cons c cs ih =>
    have hc : c ≠ '\n' := fun e => h (by simp [e])
    have hcs : '\n' ∉ cs := fun e => h (List.mem_cons_of_mem _ e)
    rw [splitLines_cons, if_neg hc, ih hcs]

theorem lookup_filter_ne {V : Type} (m : GoMap V) (k k' : Str) (h : k' ≠ k) :
    List.lookup k' (m.filter (fun e => e.1 != k)) = List.lookup k' m := by
  induction m with
  | nil => rfl
  | cons e t ih =>
    obtain ⟨ek, ev⟩ := e
    by_cases he : ek = k
    · subst he
      have hb : (k' == ek) = false := by simpa using h
      rw [List.filter_cons_of_neg (by simp), List.lookup_cons, hb, ih]
    · rw [List.filter_cons_of_pos (by simpa using he), List.lookup_cons, List.lookup_cons, ih]

theorem GoMap.get?_set {V : Type} (m : GoMap V) (k k' : Str) (v : V) :
    (m.set k v).get? k' = if k' = k then some v else m.get? k' := by
  unfold GoMap.set GoMap.get?
  by_cases h : k' = k
  · subst h; simp [List.lookup]
  · have hb : (k' == k) = false := by simpa using h
    rw [List.lookup_cons, hb, if_neg h]
    exact lookup_filter_ne m k k' h

theorem isPublished_set (mp : MetricProcessor) (id id' : Str) :
    MetricProcessor.isPublished { mp with publishedConfigs := mp.publishedConfigs.set id true } id'
      = (decide (id' = id) || mp.isPublished id') := by
  unfold MetricProcessor.isPublished
  simp only [GoMap.get?_set]
  by_cases h : id' = id <;> simp [h]

/-! ## The processor through one loop iteration -/

theorem publishDiscoveryConfig_fst (title : Str → Str) (mp : MetricProcessor)
    (metricName helpText metricType sourceLabel : Str) :
    (publishDiscoveryConfig title mp metricName helpText metricType sourceLabel).1 =
      { mp with
        mqttClient :=
          ⟨mp.mqttClient.replies,
            mp.mqttClient.sent ++ [configMessage title mp.config metricName metricType sourceLabel]⟩ } := by
  unfold publishDiscoveryConfig MqttClient.Publish configMessage
  simp only
  split_ifs <;> rfl

theorem publishDiscoveryConfig_snd (title : Str → Str) (mp : MetricProcessor)
    (metricName helpText metricType sourceLabel : Str) :
    (publishDiscoveryConfig title mp metricName helpText metricType sourceLabel).2 =
      if (mp.mqttClient.replies mp.mqttClient.sent.length).failed then
        .error (.publishConfig ((mp.mqttClient.replies mp.mqttClient.sent.length).error.getD []))
      else .ok () := by
  unfold publishDiscoveryConfig MqttClient.Publish Token.failed
  simp only
  split_ifs <;> rfl

theorem configStep_eq (title : Str → Str) (md : GoMap MetricInfo) (label name : Str)
    (mp : MetricProcessor) :
    configStep title md label name mp =
      if mp.isPublished (labeledObjectID label name) = false then
        match md.get? name with
        | some info =>
          { config := mp.config
            publishedConfigs :=
              if (mp.mqttClient.replies mp.mqttClient.sent.length).failed then mp.publishedConfigs
              else mp.publishedConfigs.set (labeledObjectID label name) true
            mqttClient :=
              ⟨mp.mqttClient.replies,
                mp.mqttClient.sent ++ [configMessage title mp.config name info.type label]⟩ }
        | none => mp
      else mp := by
  unfold configStep publishConfigIfNeeded
  by_cases hp : mp.isPublished (labeledObjectID label name) = false
  · simp only [hp, Bool.not_false, if_true]
    cases hm : md.get? name with
    | none => rfl
    | some info =>
      simp only
      have h1 := publishDiscoveryConfig_fst title mp name info.help info.type label
      have h2 := publishDiscoveryConfig_snd title mp name info.help info.type label
      generalize publishDiscoveryConfig title mp name info.help info.type label = r at h1 h2
      obtain ⟨mp', res⟩ := r
      simp only at h1 h2
      subst h1
      by_cases hf : (mp.mqttClient.replies mp.mqttClient.sent.length).failed = true
      · rw [if_pos hf] at h2; subst h2; simp [hf]
      · rw [if_neg hf] at h2; subst h2; simp [hf]
  · have hp' : mp.isPublished (labeledObjectID label name) = true := by simpa using hp
    simp [hp']

theorem stateStep_eq (label name value : Str) (mp : MetricProcessor) :
    stateStep label name value mp =
      { mp with
        mqttClient :=
          ⟨mp.mqttClient.replies, mp.mqttClient.sent ++ [stateMessage mp.config label name value]⟩ } := by
  rfl

theorem publishLine_mp (title : Str → Str) (md : GoMap MetricInfo) (label : Str)
    (st : LoopState) (line : Str) :
    (publishLine title md label st line).mp = lineStep title md label st.mp line := by
  unfold publishLine lineStep
  simp only
  split_ifs with h
  · rfl
  · cases hp : parseMetricLine (trimSpace line) with
    | error e => rfl
    | ok r =>
      obtain ⟨n, v⟩ := r
      simp only
      have hc : (publishConfigIfNeeded title md label n st).mp = configStep title md label n st.mp := by
        unfold configStep publishConfigIfNeeded
        simp only
        split_ifs
        · cases md.get? n with
          | none => rfl
          | some info =>
            simp only
            rcases publishDiscoveryConfig title st.mp n info.help info.type label with ⟨mp', _ | _⟩ <;> rfl
        · rfl
      unfold stateStep MqttClient.Publish
      simp only [← hc]
      split_ifs <;> rfl

theorem publishMetrics_eq_foldl (title : Str → Str) (mp : MetricProcessor) (body : Str)
    (md : GoMap MetricInfo) (label : Str) :
    publishMetrics title mp body md label = (splitLines body).foldl (lineStep title md label) mp := by
  unfold publishMetrics publishMetricsLoop
  suffices h : ∀ (lines : List Str) (st : LoopState),
      (lines.foldl (publishLine title md label) st).mp = lines.foldl (lineStep title md label) st.mp from
    h _ _
  intro lines
  induction lines with
  | nil => intro st; rfl
  | cons l ls ih =>
    intro st
    rw [List.foldl_cons, List.foldl_cons, ih, publishLine_mp]

/-! ## What every step keeps -/

theorem configStep_of_published (title : Str → Str) (md : GoMap MetricInfo) (label name : Str)
    (mp : MetricProcessor) (h : mp.isPublished (labeledObjectID label name) = true) :
    configStep title md label name mp = mp := by
  rw [configStep_eq, if_neg (by simp [h])]

theorem configStep_of_no_metadata (title : Str → Str) (md : GoMap MetricInfo) (label name : Str)
    (mp : MetricProcessor) (h : md.get? name = none) :
    configStep title md label name mp = mp := by
  rw [configStep_eq, h]
  simp

theorem configStep_of_new (title : Str → Str) (md : GoMap MetricInfo) (label name : Str)
    (mp : MetricProcessor) (info : MetricInfo)
    (hp : mp.isPublished (labeledObjectID label name) = false) (hm : md.get? name = some info) :
    configStep title md label name mp =
      { config := mp.config
        publishedConfigs :=
          if (mp.mqttClient.replies mp.mqttClient.sent.length).failed then mp.publishedConfigs
          else mp.publishedConfigs.set (labeledObjectID label name) true
        mqttClient :=
          ⟨mp.mqttClient.replies,
            mp.mqttClient.sent ++ [configMessage title mp.config name info.type label]⟩ } := by
  rw [configStep_eq, if_pos hp, hm]

theorem configStep_cases (title : Str → Str) (md : GoMap MetricInfo) (label name : Str)
    (mp : MetricProcessor) :
    configStep title md label name mp = mp ∨
      ∃ info, mp.isPublished (labeledObjectID label name) = false ∧ md.get? name = some info ∧
        configStep title md label name mp =
          { config := mp.config
            publishedConfigs :=
              if (mp.mqttClient.replies mp.mqttClient.sent.length).failed then mp.publishedConfigs
              else mp.publishedConfigs.set (labeledObjectID label name) true
            mqttClient :=
              ⟨mp.mqttClient.replies,
                mp.mqttClient.sent ++ [configMessage title mp.config name info.type label]⟩ } := by
  by_cases hp : mp.isPublished (labeledObjectID label name) = true
  · exact Or.inl (configStep_of_published _ _ _ _ _ hp)
  · have hp' : mp.isPublished (labeledObjectID label name) = false := by simpa using hp
    cases hm : md.get? name with
    | none => exact Or.inl (configStep_of_no_metadata _ _ _ _ _ hm)
    | some info => exact Or.inr ⟨info, hp', rfl, configStep_of_new _ _ _ _ _ info hp' hm⟩

theorem configStep_config (title : Str → Str) (md : GoMap MetricInfo) (label name : Str)
    (mp : MetricProcessor) : (configStep title md label name mp).config = mp.config := by
  rcases configStep_cases title md label name mp with h | ⟨info, _, _, h⟩ <;> rw [h]

theorem configStep_replies (title : Str → Str) (md : GoMap MetricInfo) (label name : Str)
    (mp : MetricProcessor) :
    (configStep title md label name mp).mqttClient.replies = mp.mqttClient.replies := by
  rcases configStep_cases title md label name mp with h | ⟨info, _, _, h⟩ <;> rw [h]

/-- Every property kept by the discovery step and by the state step is kept by a loop iteration. -/
theorem lineStep_preserves (P : MetricProcessor → Prop) (title : Str → Str)
    (hc : ∀ md label name mp, P mp → P (configStep title md label name mp))
    (hs : ∀ label name value mp, P mp → P (stateStep label name value mp))
    (md : GoMap MetricInfo) (label : Str) (mp : MetricProcessor) (line : Str) (h : P mp) :
    P (lineStep title md label mp line) := by
  unfold lineStep
  simp only
  split_ifs
  · exact h
  · cases parseMetricLine (trimSpace line) with
    | error e => exact h
    | ok r => exact hs _ _ _ _ (hc _ _ _ _ h)

theorem publishMetrics_preserves (P : MetricProcessor → Prop) (title : Str → Str)
    (hc : ∀ md label name mp, P mp → P (configStep title md label name mp))
    (hs : ∀ label name value mp, P mp → P (stateStep label name value mp))
    (body : Str) (md : GoMap MetricInfo) (label : Str) (mp : MetricProcessor) (h : P mp) :
    P (publishMetrics title mp body md label) := by
  rw [publishMetrics_eq_foldl]
  generalize splitLines body = lines
  induction lines generalizing mp with
  | nil => exact h
  | cons l ls ih => exact ih _ (lineStep_preserves P title hc hs md label mp l h)

theorem processMetrics_preserves (P : MetricProcessor → Prop) (title : Str → Str)
    (hc : ∀ md label name mp, P mp → P (configStep title md label name mp))
    (hs : ∀ label name value mp, P mp → P (stateStep label name value mp))
    (http : HttpResult) (label : Str) (mp : MetricProcessor) (h : P mp) :
    P (processMetrics title mp http label) := by
  unfold processMetrics
  cases fetchPrometheusMetrics http with
  | error e => exact h
  | ok body => exact publishMetrics_preserves P title hc hs _ _ _ _ h

theorem processSources_preserves (P : MetricProcessor → Prop) (title : Str → Str)
    (hc : ∀ md label name mp, P mp → P (configStep title md label name mp))
    (hs : ∀ label name value mp, P mp → P (stateStep label name value mp))
    (http : Nat → HttpResult) (sources : List Source) (i : Nat) (mp : MetricProcessor) (h : P mp) :
    P (processSources title http mp i sources) := by
  induction sources generalizing mp i with
  | nil => exact h
  | cons s rest ih =>
    exact ih _ _ (processMetrics_preserves P title hc hs _ _ _ h)

theorem Run_preserves (P : MetricProcessor → Prop) (title : Str → Str)
    (hc : ∀ md label name mp, P mp → P (configStep title md label name mp))
    (hs : ∀ label name value mp, P mp → P (stateStep label name value mp))
    (http : Nat → Nat → HttpResult) (n : Nat) (mp : MetricProcessor) (h : P mp) :
    P (Run title http mp n) := by
  induction n with
  | zero => exact h
  | succ k ih => exact processSources_preserves P title hc hs _ _ _ _ ih

theorem publishMetrics_config (title : Str → Str) (mp : MetricProcessor) (body : Str)
    (md : GoMap MetricInfo) (label : Str) :
    (publishMetrics title mp body md label).config = mp.config :=
  publishMetrics_preserves (fun m => m.config = mp.config) title
    (fun _ _ _ _ h => (configStep_config _ _ _ _ _).trans h) (fun _ _ _ _ h => h) _ _ _ _ rfl

/-- Processing a body line by line: the lines after a newline are processed from
the state the lines before it leave. -/
theorem publishMetrics_append (title : Str → Str) (mp : MetricProcessor) (a b : Str)
    (md : GoMap MetricInfo) (label : Str) :
    publishMetrics title mp (a ++ '\n' :: b) md label =
      publishMetrics title (publishMetrics title mp a md label) b md label := by
  simp only [publishMetrics_eq_foldl, splitLines_append, List.foldl_append]

theorem publishMetrics_single (title : Str → Str) (mp : MetricProcessor) (line : Str)
    (md : GoMap MetricInfo) (label : Str) (h : '\n' ∉ line) :
    publishMetrics title mp line md label = lineStep title md label mp line := by
  rw [publishMetrics_eq_foldl, splitLines_of_not_mem line h]
  rfl

/-! ## State publishes -/

theorem statePublishes_append (a b : List Message) :
    statePublishes (a ++ b) = statePublishes a ++ statePublishes b := by
  simp [statePublishes]

theorem configStep_sent (title : Str → Str) (md : GoMap MetricInfo) (label name : Str)
    (mp : MetricProcessor) :
    ∃ ms, (configStep title md label name mp).mqttClient.sent = mp.mqttClient.sent ++ ms ∧
      statePublishes ms = [] := by
  rcases configStep_cases title md label name mp with h | ⟨info, _, _, h⟩
  · exact ⟨[], by rw [h]; simp, rfl⟩
  · exact ⟨[_], by rw [h], by simp [statePublishes, configMessage]⟩

theorem lineStep_sent (title : Str → Str) (md : GoMap MetricInfo) (label : Str)
    (mp : MetricProcessor) (line : Str) :
    (lineStep title md label mp line).config = mp.config ∧
    ∃ ms, (lineStep title md label mp line).mqttClient.sent = mp.mqttClient.sent ++ ms ∧
      statePublishes ms = lineStateMessages mp.config label line := by
  unfold lineStep lineStateMessages
  simp only
  split_ifs
  · exact ⟨rfl, [], by simp, rfl⟩
  · cases parseMetricLine (trimSpace line) with
    | error e => exact ⟨rfl, [], by simp, rfl⟩
    | ok r =>
      obtain ⟨n, v⟩ := r
      obtain ⟨ms, h1, h2⟩ := configStep_sent title md label n mp
      simp only
      refine ⟨by rw [stateStep_eq]; exact configStep_config _ _ _ _ _, ms ++ [stateMessage mp.config label n v], ?_, ?_⟩
      · rw [stateStep_eq]
        simp only [h1, configStep_config, List.append_assoc]
      · rw [statePublishes_append, h2]; rfl

theorem foldl_lineStep_sent (title : Str → Str) (md : GoMap MetricInfo) (label : Str)
    (lines : List Str) (mp : MetricProcessor) :
    ∃ ms, (lines.foldl (lineStep title md label) mp).mqttClient.sent = mp.mqttClient.sent ++ ms ∧
      statePublishes ms = (lines.map (lineStateMessages mp.config label)).flatten := by
  induction lines generalizing mp with
  | nil => exact ⟨[], by simp, rfl⟩
  | cons l ls ih =>
    obtain ⟨hc, ms1, h1, h2⟩ := lineStep_sent title md label mp l
    obtain ⟨ms2, h3, h4⟩ := ih (lineStep title md label mp l)
    refine ⟨ms1 ++ ms2, ?_, ?_⟩
    · rw [List.foldl_cons, h3, h1, List.append_assoc]
    · rw [statePublishes_append, h2, h4, hc]; rfl

theorem isSampleLine_iff (line : Str) :
    isSampleLine line = true ↔ ¬(line = [] ∨ startsWith line ['#'] = true) ∧ ' ' ∈ line := by
  unfold isSampleLine
  have hc : (line.contains ' ' = true) ↔ ' ' ∈ line := List.elem_iff
  simp only [Bool.and_eq_true, bne_iff_ne, ne_eq, Bool.not_eq_true', hc, not_or, Bool.not_eq_true]

theorem forall₂_sampleLines (config : Config) (label : Str) (lines : List Str) :
    List.Forall₂
      (fun line m => ∃ name value, parseMetricLine line = .ok (name, value) ∧
        m = ⟨config.topicBase ++ (label ++ "_".toList ++ sanitizeMetricName name) ++ "/state".toList,
              0, false, .text value⟩)
      ((lines.map trimSpace).filter isSampleLine)
      ((lines.map (lineStateMessages config label)).flatten) := by
  induction lines with
  | nil => exact List.Forall₂.nil
  | cons l ls ih =>
    rw [List.map_cons, List.map_cons, List.flatten_cons, List.filter_cons]
    by_cases hf : isSampleLine (trimSpace l) = true
    · obtain ⟨hk, hs⟩ := (isSampleLine_iff _).mp hf
      rw [if_pos hf]
      simp only [lineStateMessages, if_neg hk, parseMetricLine_eq _ hs, List.singleton_append]
      exact List.Forall₂.cons ⟨_, _, parseMetricLine_eq _ hs, rfl⟩ ih
    · rw [if_neg hf]
      have : lineStateMessages config label l = [] := by
        simp only [lineStateMessages]
        split_ifs with hk
        · rfl
        · have hs : ' ' ∉ trimSpace l := fun hs => hf ((isSampleLine_iff _).mpr ⟨hk, hs⟩)
          obtain ⟨e, he⟩ := (parseMetricLine_error_iff _).mpr hs
          rw [he]
      rw [this, List.nil_append]
      exact ih

/-! ## Topics -/

theorem configTopic_injective (config : Config) (a b : Str)
    (h : configTopic config a = configTopic config b) : a = b := by
  unfold configTopic at h
  rw [List.append_assoc, List.append_assoc] at h
  exact List.append_cancel_right (List.append_cancel_left h)

theorem stateTopic_injective (config : Config) (a b : Str)
    (h : stateTopic config a = stateTopic config b) : a = b := by
  unfold stateTopic at h
  rw [List.append_assoc, List.append_assoc] at h
  exact List.append_cancel_right (List.append_cancel_left h)

theorem not_state_suffix_configTopic (config : Config) (id : Str) :
    ¬ "/state".toList <:+ configTopic config id := by
  rintro ⟨t, ht⟩
  have h := congrArg List.reverse ht
  unfold configTopic at h
  rw [List.reverse_append, List.reverse_append,
    show "/state".toList.reverse = 'e' :: "tats/".toList from by decide,
    show "/config".toList.reverse = 'g' :: "ifnoc/".toList from by decide] at h
  have h0 := (List.cons.inj h).1
  revert h0
  decide

theorem not_config_suffix_stateTopic (config : Config) (id : Str) :
    ¬ "/config".toList <:+ stateTopic config id := by
  rintro ⟨t, ht⟩
  have h := congrArg List.reverse ht
  unfold stateTopic at h
  rw [List.reverse_append, List.reverse_append,
    show "/state".toList.reverse = 'e' :: "tats/".toList from by decide,
    show "/config".toList.reverse = 'g' :: "ifnoc/".toList from by decide] at h
  have h0 := (List.cons.inj h).1
  revert h0
  decide

theorem stateTopic_ne_configTopic (config : Config) (a b : Str) :
    stateTopic config a ≠ configTopic config b := by
  intro h
  apply not_state_suffix_configTopic config b
  rw [← h]
  exact ⟨config.topicBase ++ a, rfl⟩

theorem isConfigFor_stateMessage (config : Config) (id label name value : Str) :
    isConfigFor config id (stateMessage config label name value) = false := by
  unfold isConfigFor stateMessage
  simp only [beq_eq_false_iff_ne]
  exact stateTopic_ne_configTopic _ _ _

theorem isConfigFor_configMessage (title : Str → Str) (config : Config) (id name type label : Str) :
    isConfigFor config id (configMessage title config name type label) = true ↔
      id = labeledObjectID label name := by
  unfold isConfigFor configMessage
  simp only [beq_iff_eq]
  constructor
  · intro h; exact (configTopic_injective _ _ _ h).symm
  · intro h; rw [h]

/-! ## The discovery cache -/

theorem getElem?_concat_some {α : Type} (l : List α) (a m : α) (i : Nat)
    (h : (l ++ [a])[i]? = some m) : l[i]? = some m ∨ (i = l.length ∧ m = a) := by
  by_cases hi : i < l.length
  · rw [List.getElem?_append_left hi] at h
    exact Or.inl h
  · rw [List.getElem?_append_right (by omega)] at h
    right
    by_cases h0 : i - l.length = 0
    · rw [h0] at h
      simp only [List.getElem?_cons_zero, Option.some.injEq] at h
      exact ⟨by omega, h.symm⟩
    · obtain ⟨k, hk⟩ := Nat.exists_eq_succ_of_ne_zero h0
      rw [hk] at h
      simp at h

theorem getElem?_lt_of_some {α : Type} (l : List α) (m : α) (i : Nat) (h : l[i]? = some m) :
    i < l.length := by
  by_contra hc
  rw [List.getElem?_eq_none (by omega)] at h
  cases h

theorem discoveryInv_stateStep (config : Config) (replies : Nat → Token)
    (label name value : Str) (mp : MetricProcessor) (h : DiscoveryInv config replies mp) :
    DiscoveryInv config replies (stateStep label name value mp) := by
  obtain ⟨hc, hr, h1, h2⟩ := h
  rw [stateStep_eq]
  refine ⟨hc, hr, ?_, ?_⟩
  · intro i m id hi hm hf
    rcases getElem?_concat_some _ _ _ _ hi with hi | ⟨_, rfl⟩
    · exact h1 i m id hi hm hf
    · rw [hc, isConfigFor_stateMessage] at hm
      cases hm
  · intro i j mi mj id hij hi hj hmi hmj
    rcases getElem?_concat_some _ _ _ _ hj with hj | ⟨hjl, rfl⟩
    · have hi' : mp.mqttClient.sent[i]? = some mi := by
        rcases getElem?_concat_some _ _ _ _ hi with hi | ⟨hil, _⟩
        · exact hi
        · have := getElem?_lt_of_some _ _ _ hj
          omega
      exact h2 i j mi mj id hij hi' hj hmi hmj
    · rw [hc, isConfigFor_stateMessage] at hmj
      cases hmj

theorem isPublished_mono_set (mp : MetricProcessor) (id id' : Str) (b : Bool) (m : Message)
    (h : mp.isPublished id' = true) :
    MetricProcessor.isPublished
      { config := mp.config
        publishedConfigs := if b then mp.publishedConfigs else mp.publishedConfigs.set id true
        mqttClient := ⟨mp.mqttClient.replies, mp.mqttClient.sent ++ [m]⟩ } id' = true := by
  cases b
  · have := isPublished_set mp id id'
    unfold MetricProcessor.isPublished at this h ⊢
    simp only [Bool.false_eq_true, if_false]
    simp only at this
    rw [this, h, Bool.or_true]
  · exact h

theorem discoveryInv_configStep (title : Str → Str) (config : Config) (replies : Nat → Token)
    (md : GoMap MetricInfo) (label name : Str) (mp : MetricProcessor)
    (h : DiscoveryInv config replies mp) :
    DiscoveryInv config replies (configStep title md label name mp) := by
  rcases configStep_cases title md label name mp with he | ⟨info, hp, _, he⟩
  · rw [he]; exact h
  · obtain ⟨hc, hr, h1, h2⟩ := h
    rw [he]
    refine ⟨hc, hr, ?_, ?_⟩
    · intro i m id hi hm hf
      rcases getElem?_concat_some _ _ _ _ hi with hi | ⟨hil, rfl⟩
      · exact isPublished_mono_set mp _ _ _ _ (h1 i m id hi hm hf)
      · rw [hc, isConfigFor_configMessage] at hm
        subst hm
        rw [hil, ← hr] at hf
        simp only [hf, Bool.false_eq_true, if_false]
        have := isPublished_set mp (labeledObjectID label name) (labeledObjectID label name)
        unfold MetricProcessor.isPublished at this ⊢
        simp only at this ⊢
        rw [this]
        simp
    · intro i j mi mj id hij hi hj hmi hmj
      rcases getElem?_concat_some _ _ _ _ hj with hj | ⟨hjl, rfl⟩
      · have hi' : mp.mqttClient.sent[i]? = some mi := by
          rcases getElem?_concat_some _ _ _ _ hi with hi | ⟨hil, _⟩
          · exact hi
          · have := getElem?_lt_of_some _ _ _ hj
            omega
        exact h2 i j mi mj id hij hi' hj hmi hmj
      · rw [hc, isConfigFor_configMessage] at hmj
        subst hmj
        have hi' : mp.mqttClient.sent[i]? = some mi := by
          rcases getElem?_concat_some _ _ _ _ hi with hi | ⟨hil, _⟩
          · exact hi
          · omega
        by_contra hf
        have hf' : (replies i).failed = false := by simpa using hf
        rw [h1 i mi _ hi' hmi hf'] at hp
        cases hp

theorem discoveryInv_Run (title : Str → Str) (config : Config) (replies : Nat → Token)
    (http : Nat → Nat → HttpResult) (n : Nat) (mp : MetricProcessor)
    (h : DiscoveryInv config replies mp) : DiscoveryInv config replies (Run title http mp n) :=
  Run_preserves (DiscoveryInv config replies) title
    (fun _ _ _ _ h => discoveryInv_configStep title config replies _ _ _ _ h)
    (fun _ _ _ _ h => discoveryInv_stateStep config replies _ _ _ _ h) http n mp h

theorem discoveryInv_new (config : Config) (replies : Nat → Token) :
    DiscoveryInv config replies ⟨config, [], ⟨replies, []⟩⟩ := by
  refine ⟨rfl, rfl, ?_, ?_⟩
  · intro i m id hi; simp at hi
  · intro i j mi mj id _ hi; simp at hi

theorem length_filter_le_one {α : Type} (p : α → Bool) (l : List α)
    (h : ∀ (i j : Nat) (mi mj : α), i < j → l[i]? = some mi → l[j]? = some mj → p mi = true → p mj = true →
      False) : (l.filter p).length ≤ 1 := by
  induction l with
  | nil => simp
  | cons a t ih =>
    have ht : (t.filter p).length ≤ 1 :=
      ih (fun i j mi mj hij hi hj => h (i + 1) (j + 1) mi mj (by omega) (by simpa using hi)
        (by simpa using hj))
    by_cases ha : p a = true
    · have hnil : t.filter p = [] := by
        rw [List.filter_eq_nil_iff]
        intro x hx hpx
        obtain ⟨k, hk⟩ := List.getElem?_of_mem hx
        exact h 0 (k + 1) a x (by omega) (by simp) (by simpa using hk) ha hpx
      rw [List.filter_cons_of_pos ha, hnil]
      simp
    · rw [List.filter_cons_of_neg ha]
      exact ht

/-! ## State publishes of one call and discovery publishes of a run -/

/-- Claim C1: for every scrape body, metadata map, source label, initial
processor and broker replies, the state publishes (QoS 0) that `publishMetrics`
adds to the trace correspond one to one, in line order, to the sample lines of
the body; the publish of a sample goes to
`topicBase + sourceLabel + "_" + sanitize(name) + "/state"` with the parsed value
as payload, QoS 0 and retain false.  Messages sent before the call stay in place. -/
theorem publishMetrics_state_publishes (title : Str → Str) (mp : MetricProcessor) (body : Str)
    (md : GoMap MetricInfo) (label : Str) :
    List.Forall₂
      (fun line m => ∃ name value, parseMetricLine line = .ok (name, value) ∧
        m = ⟨mp.config.topicBase ++ (label ++ "_".toList ++ sanitizeMetricName name) ++
              "/state".toList, 0, false, .text value⟩)
      (sampleLines body)
      (statePublishes (sentAfter mp.mqttClient.sent.length (publishMetrics title mp body md label)))
    ∧ mp.mqttClient.sent <+: (publishMetrics title mp body md label).mqttClient.sent := by
  obtain ⟨ms, h1, h2⟩ := foldl_lineStep_sent title md label (splitLines body) mp
  rw [← publishMetrics_eq_foldl] at h1
  refine ⟨?_, ⟨ms, h1.symm⟩⟩
  unfold sentAfter sampleLines
  rw [h1, List.drop_left, h2]
  exact forall₂_sampleLines mp.config label (splitLines body)

theorem isPublished_configStep_mono (title : Str → Str) (md : GoMap MetricInfo) (label name : Str)
    (mp : MetricProcessor) (id : Str) (h : mp.isPublished id = true) :
    (configStep title md label name mp).isPublished id = true := by
  rcases configStep_cases title md label name mp with he | ⟨info, _, _, he⟩
  · rw [he]; exact h
  · rw [he]; exact isPublished_mono_set mp _ _ _ _ h

/-- Once an identifier is marked published, later steps send no discovery message for it. -/
theorem published_no_config_Run (title : Str → Str) (http : Nat → Nat → HttpResult) (n : Nat)
    (mp : MetricProcessor) (id : Str) (h : mp.isPublished id = true) :
    ∀ m ∈ sentAfter mp.mqttClient.sent.length (Run title http mp n),
      isConfigFor mp.config id m = false := by
  have key := Run_preserves (fun m' : MetricProcessor => m'.config = mp.config ∧
      m'.isPublished id = true ∧ ∃ ms, m'.mqttClient.sent = mp.mqttClient.sent ++ ms ∧
        ∀ m ∈ ms, isConfigFor mp.config id m = false) title ?_ ?_ http n mp ?_
  · obtain ⟨_, _, ms, hs, hall⟩ := key
    unfold sentAfter
    rw [hs, List.drop_left]
    exact hall
  · rintro md label name m' ⟨hc, hp, ms, hs, hall⟩
    refine ⟨(configStep_config _ _ _ _ _).trans hc, isPublished_configStep_mono _ _ _ _ _ _ hp, ?_⟩
    rcases configStep_cases title md label name m' with he | ⟨info, hnp, _, he⟩
    · rw [he]; exact ⟨ms, hs, hall⟩
    · rw [he]
      refine ⟨ms ++ [configMessage title m'.config name info.type label], ?_, ?_⟩
      · simp only [hs, List.append_assoc]
      · intro m hm
        rcases List.mem_append.mp hm with hm | hm
        · exact hall m hm
        · rw [List.mem_singleton] at hm
          subst hm
          rw [hc]
          by_contra hcon
          have hcon' : isConfigFor mp.config id
              (configMessage title mp.config name info.type label) = true := by simpa using hcon
          rw [isConfigFor_configMessage] at hcon'
          subst hcon'
          rw [hp] at hnp
          cases hnp
  · rintro label name value m' ⟨hc, hp, ms, hs, hall⟩
    rw [stateStep_eq]
    refine ⟨hc, hp, ms ++ [stateMessage m'.config label name value], ?_, ?_⟩
    · simp only [hs, List.append_assoc]
    · intro m hm
      rcases List.mem_append.mp hm with hm | hm
      · exact hall m hm
      · rw [List.mem_singleton] at hm
        subst hm
        rw [hc]
        exact isConfigFor_stateMessage _ _ _ _ _
  · exact ⟨rfl, h, [], by simp, by simp⟩

/-- Claim C2: over any number of sweeps (any configured sources, any HTTP
results) from a freshly constructed processor, if every discovery publish in the
trace was acknowledged in time and without error, the trace holds at most one
discovery publish per entity identifier; and from any state in which an
identifier is marked published, no later discovery publish is made for it. -/
theorem discovery_at_most_once (title : Str → Str) (config : Config) (replies : Nat → Token)
    (http : Nat → Nat → HttpResult) (n : Nat)
    (hack : ∀ (i : Nat) (m : Message),
      (Run title http ⟨config, [], ⟨replies, []⟩⟩ n).mqttClient.sent[i]? = some m →
      (∃ id, isConfigFor config id m = true) → replies i = ⟨true, none⟩) :
    (∀ id : Str,
      ((Run title http ⟨config, [], ⟨replies, []⟩⟩ n).mqttClient.sent.filter
        (isConfigFor config id)).length ≤ 1) ∧
    (∀ (mp : MetricProcessor) (id : Str), mp.isPublished id = true →
      ∀ (http' : Nat → Nat → HttpResult) (k : Nat),
      ∀ m ∈ sentAfter mp.mqttClient.sent.length (Run title http' mp k),
        isConfigFor mp.config id m = false) := by
  constructor
  · intro id
    obtain ⟨_, _, _, h2⟩ := discoveryInv_Run title config replies http n _
      (discoveryInv_new config replies)
    apply length_filter_le_one
    intro i j mi mj hij hi hj hmi hmj
    have hf := h2 i j mi mj id hij hi hj hmi hmj
    rw [hack i mi hi ⟨id, hmi⟩] at hf
    revert hf
    decide
  · intro mp id hp http' k
    exact published_no_config_Run title http' k mp id hp

/-- Witness for `discovery_at_most_once`: two sweeps over a body that names one
metric on two lines, with a broker that acknowledges everything, publish its
discovery record exactly once. -/
theorem discovery_at_most_once_witness :
    ((Run id exampleHttp (exampleProcessor ackReplies) 2).mqttClient.sent.filter
      (isConfigFor exampleConfig "station1_wingbits_gps_fix".toList)).length ≤ 1 ∧
    ((Run id exampleHttp (exampleProcessor ackReplies) 2).mqttClient.sent.filter
      (isConfigFor exampleConfig "station1_wingbits_gps_fix".toList)).length = 1 :=
  ⟨(discovery_at_most_once id exampleConfig ackReplies exampleHttp 2 (fun _ _ _ _ => rfl)).1 _,
    by decide⟩

/-- Claim C3, evaluated where the code departs from it: when the wait for the
acknowledgment times out (`WaitTimeout` returns false), `publishDiscoveryConfig`
returns no error, `publishMetrics` marks the identifier published, and the next
cycle makes no discovery publish for it, only the state publishes. -/
theorem discovery_timeout_marks_published :
    (timeoutReplies 0).waitTimeout = false ∧
    (publishDiscoveryConfig id (exampleProcessor timeoutReplies) "wingbits_gps_fix".toList
      "GPS fix status".toList "gauge".toList "station1".toList).2 = .ok () ∧
    (exampleProcessor timeoutReplies).isPublished "station1_wingbits_gps_fix".toList = false ∧
    (Run id exampleHttp (exampleProcessor timeoutReplies) 1).isPublished
      "station1_wingbits_gps_fix".toList = true ∧
    ((Run id exampleHttp (exampleProcessor timeoutReplies) 1).mqttClient.sent.filter
      (isConfigFor exampleConfig "station1_wingbits_gps_fix".toList)).length = 1 ∧
    ((Run id exampleHttp (exampleProcessor timeoutReplies) 2).mqttClient.sent.filter
      (isConfigFor exampleConfig "station1_wingbits_gps_fix".toList)).length = 1 := by
  decide

/-! ## Identifiers -/

theorem sanitizeMetricName_eq_map (s : Str) :
    sanitizeMetricName s = s.map (fun c => if c = '.' ∨ c = '-' then '_' else c) := by
  unfold sanitizeMetricName replaceAll
  rw [List.map_map]
  apply List.map_congr_left
  intro c _
  by_cases h1 : c = '.'
  · subst h1; decide
  · by_cases h2 : c = '-'
    · subst h2; decide
    · simp [h1, h2]

theorem sanitizeMetricName_append (a b : Str) :
    sanitizeMetricName (a ++ b) = sanitizeMetricName a ++ sanitizeMetricName b := by
  simp [sanitizeMetricName_eq_map]

theorem sanitizeMetricName_idem (s : Str) :
    sanitizeMetricName (sanitizeMetricName s) = sanitizeMetricName s := by
  rw [sanitizeMetricName_eq_map, sanitizeMetricName_eq_map, List.map_map]
  apply List.map_congr_left
  intro c _
  by_cases h : c = '.' ∨ c = '-'
  · simp only [Function.comp, if_pos h]; decide
  · simp only [Function.comp, if_neg h]

theorem sanitizeMetricName_eq_self_iff (s : Str) :
    sanitizeMetricName s = s ↔ '.' ∉ s ∧ '-' ∉ s := by
  rw [sanitizeMetricName_eq_map]
  induction s with
  | nil => simp
  | cons c t ih =>
    rw [List.map_cons, List.cons.injEq, ih]
    by_cases h : c = '.' ∨ c = '-'
    · rw [if_pos h]
      constructor
      · rintro ⟨hc, _⟩
        rcases h with h | h <;> subst h <;> exact absurd hc (by decide)
      · rintro ⟨h1, h2⟩
        rcases h with h | h <;> subst h <;> simp at h1 h2
    · rw [if_neg h]
      push_neg at h
      simp only [List.mem_cons, not_or, true_and]
      constructor
      · rintro ⟨h1, h2⟩; exact ⟨⟨fun e => h.1 e.symm, h1⟩, ⟨fun e => h.2 e.symm, h2⟩⟩
      · rintro ⟨h1, h2⟩; exact ⟨h1.2, h2.2⟩

theorem specEntityIdentifier_eq (label name : Str) :
    specEntityIdentifier label name =
      sanitizeMetricName label ++ "_".toList ++ sanitizeMetricName name := by
  unfold specEntityIdentifier
  rw [sanitizeMetricName_append, sanitizeMetricName_append, sanitizeMetricName_idem]
  rfl

theorem append_underscore_inj (l1 l2 s1 s2 : Str) (h1 : '_' ∉ l1) (h2 : '_' ∉ l2)
    (h : l1 ++ '_' :: s1 = l2 ++ '_' :: s2) : l1 = l2 ∧ s1 = s2 := by
  induction l1 generalizing l2 with
  | nil =>
    cases l2 with
    | nil => exact ⟨rfl, (List.cons.inj h).2⟩
    | cons d u =>
      have := (List.cons.inj h).1
      subst this
      simp at h2
  | cons c t ih =>
    cases l2 with
    | nil =>
      have := (List.cons.inj h).1
      subst this
      simp at h1
    | cons d u =>
      obtain ⟨hcd, ht⟩ := List.cons.inj h
      obtain ⟨e1, e2⟩ := ih u (fun hm => h1 (List.mem_cons_of_mem _ hm))
        (fun hm => h2 (List.mem_cons_of_mem _ hm)) ht
      exact ⟨by rw [hcd, e1], e2⟩

theorem lineStep_sample (title : Str → Str) (md : GoMap MetricInfo) (label : Str)
    (mp : MetricProcessor) (line name value : Str)
    (hk : ¬(trimSpace line = [] ∨ startsWith (trimSpace line) ['#'] = true))
    (hp : parseMetricLine (trimSpace line) = .ok (name, value)) :
    lineStep title md label mp line =
      stateStep label name value (configStep title md label name mp) := by
  unfold lineStep
  simp only [if_neg hk, hp]

/-- Claim C4, amended: the entity identifier that `publishDiscoveryConfig` and
`publishMetrics` put in the topic and use as key of `publishedConfigs` is
`sourceLabel + "_" + sanitize(metricName)`, with the source label not sanitized;
it equals `sanitize(sourceLabel + "_" + sanitize(metricName))` exactly when the
source label contains neither `.` nor `-`. -/
theorem entity_identifier_unsanitized_label (title : Str → Str) (mp : MetricProcessor)
    (md : GoMap MetricInfo) (label line name value help type : Str)
    (hnl : '\n' ∉ line)
    (hk : ¬(trimSpace line = [] ∨ startsWith (trimSpace line) ['#'] = true))
    (hp : parseMetricLine (trimSpace line) = .ok (name, value)) :
    ((publishDiscoveryConfig title mp name help type label).1.mqttClient.sent.getLast?.map
        (fun m => m.topic) =
      some (mp.config.topicBase ++ (label ++ "_".toList ++ sanitizeMetricName name) ++
        "/config".toList)) ∧
    ((publishMetrics title mp line md label).mqttClient.sent.getLast?.map (fun m => m.topic) =
      some (mp.config.topicBase ++ (label ++ "_".toList ++ sanitizeMetricName name) ++
        "/state".toList)) ∧
    ((publishMetrics title mp line md label).publishedConfigs = mp.publishedConfigs ∨
      (publishMetrics title mp line md label).publishedConfigs =
        mp.publishedConfigs.set (label ++ "_".toList ++ sanitizeMetricName name) true) ∧
    (specEntityIdentifier label name = label ++ "_".toList ++ sanitizeMetricName name ↔
      '.' ∉ label ∧ '-' ∉ label) := by
  refine ⟨?_, ?_, ?_, ?_⟩
  · rw [publishDiscoveryConfig_fst]
    simp [configMessage, configTopic, labeledObjectID]
  · rw [publishMetrics_single _ _ _ _ _ hnl, lineStep_sample _ _ _ _ _ _ _ hk hp, stateStep_eq]
    simp [stateMessage, stateTopic, labeledObjectID, configStep_config]
  · rw [publishMetrics_single _ _ _ _ _ hnl, lineStep_sample _ _ _ _ _ _ _ hk hp, stateStep_eq]
    rcases configStep_cases title md label name mp with he | ⟨info, _, _, he⟩
    · left; rw [he]
    · rw [he]
      by_cases hf : (mp.mqttClient.replies mp.mqttClient.sent.length).failed = true
      · left; simp only [hf, if_true]
      · right; simp only [hf, Bool.false_eq_true, if_false]; rfl
  · rw [specEntityIdentifier_eq, ← sanitizeMetricName_eq_self_iff]
    constructor
    · intro h
      rw [List.append_assoc, List.append_assoc] at h
      exact List.append_cancel_right h
    · intro h; rw [h]

/-- Witness for `entity_identifier_unsanitized_label`: source `station1` and the
line `wingbits.altitude-ft 1000` give the identifier `station1_wingbits_altitude_ft`. -/
theorem entity_identifier_unsanitized_label_witness :
    parseMetricLine (trimSpace "wingbits.altitude-ft 1000".toList) =
      .ok ("wingbits.altitude-ft".toList, "1000".toList) ∧
    (publishMetrics id (exampleProcessor ackReplies) "wingbits.altitude-ft 1000".toList []
        "station1".toList).mqttClient.sent.getLast?.map (fun m => m.topic) =
      some ("homeassistant/sensor/station1_wingbits_altitude_ft/state".toList) ∧
    specEntityIdentifier "station1".toList "wingbits.altitude-ft".toList =
      "station1_wingbits_altitude_ft".toList :=
  ⟨by decide,
    (entity_identifier_unsanitized_label id (exampleProcessor ackReplies) []
      "station1".toList "wingbits.altitude-ft 1000".toList "wingbits.altitude-ft".toList
      "1000".toList [] [] (by decide) (by decide) (by decide)).2.1.trans (by decide),
    by decide⟩

/-- Claim C4 as stated fails: for the source label `station-1` the code uses the
identifier `station-1_m`, while `sanitize(sourceLabel + "_" + sanitize(metricName))`
is `station_1_m`. -/
theorem entity_identifier_counterexample :
    labeledObjectID "station-1".toList "m".toList = "station-1_m".toList ∧
    specEntityIdentifier "station-1".toList "m".toList = "station_1_m".toList ∧
    (publishMetrics id (exampleProcessor ackReplies) "m 1".toList [] "station-1".toList
      ).mqttClient.sent.map (fun m => m.topic) =
      ["homeassistant/sensor/station-1_m/state".toList] ∧
    labeledObjectID "station-1".toList "m".toList ≠
      specEntityIdentifier "station-1".toList "m".toList := by
  decide

/-- Claim C5, amended: for source labels without `_`, the identifiers of
`(l1, m1)` and `(l2, m2)` coincide exactly when `l1 = l2` and
`sanitize(m1) = sanitize(m2)`; so two different pairs whose metric names contain
neither `.` nor `-` get different identifiers, and different identifiers always
give different state topics. -/
theorem identifier_collision_iff (l1 l2 m1 m2 : Str) (h1 : '_' ∉ l1) (h2 : '_' ∉ l2) :
    (labeledObjectID l1 m1 = labeledObjectID l2 m2 ↔
      l1 = l2 ∧ sanitizeMetricName m1 = sanitizeMetricName m2) ∧
    ('.' ∉ m1 → '-' ∉ m1 → '.' ∉ m2 → '-' ∉ m2 → (l1, m1) ≠ (l2, m2) →
      labeledObjectID l1 m1 ≠ labeledObjectID l2 m2) ∧
    (∀ config : Config,
      stateTopic config (labeledObjectID l1 m1) = stateTopic config (labeledObjectID l2 m2) ↔
        labeledObjectID l1 m1 = labeledObjectID l2 m2) := by
  have key : labeledObjectID l1 m1 = labeledObjectID l2 m2 ↔
      l1 = l2 ∧ sanitizeMetricName m1 = sanitizeMetricName m2 := by
    constructor
    · intro h
      unfold labeledObjectID at h
      rw [List.append_assoc, List.append_assoc] at h
      exact append_underscore_inj l1 l2 _ _ h1 h2 h
    · rintro ⟨e1, e2⟩
      unfold labeledObjectID
      rw [e1, e2]
  refine ⟨key, ?_, ?_⟩
  · intro a1 a2 b1 b2 hne heq
    obtain ⟨e1, e2⟩ := key.mp heq
    rw [(sanitizeMetricName_eq_self_iff m1).mpr ⟨a1, a2⟩,
      (sanitizeMetricName_eq_self_iff m2).mpr ⟨b1, b2⟩] at e2
    exact hne (by rw [e1, e2])
  · intro config
    exact ⟨stateTopic_injective config _ _, fun h => by rw [h]⟩

/-- Witness for `identifier_collision_iff` at two sources of one metric. -/
theorem identifier_collision_iff_witness :
    '_' ∉ "station1".toList ∧ '_' ∉ "station2".toList ∧
    labeledObjectID "station1".toList "wingbits_gps_fix".toList ≠
      labeledObjectID "station2".toList "wingbits_gps_fix".toList :=
  ⟨by decide, by decide,
    (identifier_collision_iff "station1".toList "station2".toList "wingbits_gps_fix".toList
      "wingbits_gps_fix".toList (by decide) (by decide)).2.1
      (by decide) (by decide) (by decide) (by decide) (by decide)⟩

/-- Claim C5 as stated fails: the different pairs `(a, b.c)` and `(a, b-c)` get
the same identifier `a_b_c`, and so do `(a_b, c)` and `(a, b_c)`. -/
theorem identifier_collision_counterexample :
    ("a".toList, "b.c".toList) ≠ ("a".toList, "b-c".toList) ∧
    labeledObjectID "a".toList "b.c".toList = labeledObjectID "a".toList "b-c".toList ∧
    ("a_b".toList, "c".toList) ≠ ("a".toList, "b_c".toList) ∧
    labeledObjectID "a_b".toList "c".toList = labeledObjectID "a".toList "b_c".toList := by
  decide

/-! ## Parsing a sample line -/

/-- Claim C6: for every line that contains a space, `parseMetricLine` returns
as name the text before the first opening brace when one occurs before the first
space, otherwise the text before the first space, and as value the text after the
last space; for a line `name{labels} value` the label block, spaces included,
changes neither. -/
theorem parseMetricLine_name_value (line : Str) (h : ' ' ∈ line) :
    parseMetricLine line =
      .ok (if '\x7b' ∈ line.takeWhile (fun c => c != ' ')
            then line.takeWhile (fun c => c != '\x7b')
            else line.takeWhile (fun c => c != ' '),
          (line.reverse.takeWhile (fun c => c != ' ')).reverse) ∧
    (∀ name labels value : Str, line = name ++ '\x7b' :: labels ++ '\x7d' :: ' ' :: value →
      '\x7b' ∉ name → ' ' ∉ name → ' ' ∉ value → parseMetricLine line = .ok (name, value)) := by
  refine ⟨parseMetricLine_eq line h, ?_⟩
  intro name labels value hl hb hs hv
  rw [parseMetricLine_eq line h]
  have hname : specName line = name := by
    have htw : line.takeWhile (fun c => c != ' ') =
        name ++ ('\x7b' :: labels ++ '\x7d' :: ' ' :: value).takeWhile (fun c => c != ' ') := by
      rw [hl, List.append_assoc, List.takeWhile_append_of_pos]
      intro c hc
      have : c ≠ ' ' := fun e => hs (e ▸ hc)
      simpa using this
    have hmem : '\x7b' ∈ line.takeWhile (fun c => c != ' ') := by
      rw [htw]
      apply List.mem_append_right
      rw [List.cons_append, List.takeWhile_cons_of_pos (by decide)]
      exact List.mem_cons_self _ _
    unfold specName
    rw [if_pos hmem, hl, List.append_assoc, List.takeWhile_append_of_pos, List.cons_append,
      List.takeWhile_cons_of_neg (by decide), List.append_nil]
    intro c hc
    have : c ≠ '\x7b' := fun e => hb (e ▸ hc)
    simpa using this
  have hvalue : specValue line = value := by
    unfold specValue
    have hr : line.reverse = value.reverse ++ ' ' :: ('\x7d' :: (name ++ '\x7b' :: labels).reverse) := by
      rw [hl]
      simp
    rw [hr, List.takeWhile_append_of_pos, List.takeWhile_cons_of_neg (by decide), List.append_nil,
      List.reverse_reverse]
    intro c hc
    have : c ≠ ' ' := fun e => hv (e ▸ List.mem_reverse.mp hc)
    simpa using this
  rw [hname, hvalue]

/-- Witness for `parseMetricLine_name_value`: the line
`http_requests_total{method="GET"} 1027 1609459200` of the specification. -/
theorem parseMetricLine_name_value_witness :
    ' ' ∈ "http_requests_total\x7bmethod=\"GET\"\x7d 1027 1609459200".toList ∧
    parseMetricLine "http_requests_total\x7bmethod=\"GET\"\x7d 1027 1609459200".toList =
      .ok ("http_requests_total".toList, "1609459200".toList) ∧
    parseMetricLine "up\x7bjob=\"a b\"\x7d 1".toList = .ok ("up".toList, "1".toList) :=
  ⟨by decide,
    (parseMetricLine_name_value _ (by decide)).1.trans (by decide),
    (parseMetricLine_name_value "up\x7bjob=\"a b\"\x7d 1".toList (by decide)).2
      "up".toList "job=\"a b\"".toList "1".toList (by decide) (by decide) (by decide)
      (by decide)⟩

theorem lineStep_skip (title : Str → Str) (md : GoMap MetricInfo) (label : Str)
    (mp : MetricProcessor) (line : Str) (hsp : ' ' ∉ trimSpace line) :
    lineStep title md label mp line = mp := by
  unfold lineStep
  simp only
  split_ifs
  · rfl
  · obtain ⟨e, he⟩ := (parseMetricLine_error_iff _).mpr hsp
    rw [he]

/-- Claim C7: `parseMetricLine` returns an error exactly for the lines without a
space; in `publishMetrics` a line that has no space after trimming changes
nothing (no message is sent, `publishedConfigs` and the processor are as before),
and a body with such a line is processed like the body without it. -/
theorem parse_error_line_skipped (title : Str → Str) (mp : MetricProcessor)
    (md : GoMap MetricInfo) (label bad : Str) (hnl : '\n' ∉ bad) (hsp : ' ' ∉ trimSpace bad) :
    (∀ line : Str, (∃ e, parseMetricLine line = .error e) ↔ ' ' ∉ line) ∧
    publishMetrics title mp bad md label = mp ∧
    (∀ pre post : Str,
      publishMetrics title mp (pre ++ '\n' :: bad ++ '\n' :: post) md label =
        publishMetrics title mp (pre ++ '\n' :: post) md label) ∧
    (∀ pre : Str,
      publishMetrics title mp (pre ++ '\n' :: bad) md label = publishMetrics title mp pre md label) ∧
    (∀ post : Str,
      publishMetrics title mp (bad ++ '\n' :: post) md label =
        publishMetrics title mp post md label) := by
  have hsingle : ∀ m : MetricProcessor, publishMetrics title m bad md label = m := fun m => by
    rw [publishMetrics_single _ _ _ _ _ hnl, lineStep_skip _ _ _ _ _ hsp]
  refine ⟨parseMetricLine_error_iff, hsingle mp, ?_, ?_, ?_⟩
  · intro pre post
    rw [publishMetrics_append, publishMetrics_append, hsingle, publishMetrics_append]
  · intro pre
    rw [publishMetrics_append, hsingle]
  · intro post
    rw [publishMetrics_append, hsingle]

/-- Witness for `parse_error_line_skipped`: the line `malformed_line_no_space`
is a parse error and the batch around it is still processed. -/
theorem parse_error_line_skipped_witness :
    '\n' ∉ "malformed_line_no_space".toList ∧
    ' ' ∉ trimSpace "malformed_line_no_space".toList ∧
    parseMetricLine "malformed_line_no_space".toList = .error .noValue ∧
    (publishMetrics id (exampleProcessor ackReplies)
      ("a 1".toList ++ '\n' :: "malformed_line_no_space".toList ++ '\n' :: "b 2".toList) []
      "station1".toList).mqttClient.sent.map (fun m => m.payload) =
      [.text "1".toList, .text "2".toList] :=
  ⟨by decide, by decide, by decide,
    (congrArg (fun m : MetricProcessor => m.mqttClient.sent.map (fun m => m.payload))
      ((parse_error_line_skipped id (exampleProcessor ackReplies) [] "station1".toList
        "malformed_line_no_space".toList (by decide) (by decide)).2.2.1
        "a 1".toList "b 2".toList)).trans (by decide)⟩

/-- Claim C9: a sample whose metric name has no entry in the metadata map gets
no discovery publish and leaves `publishedConfigs` unchanged, and its state is
still published: processing its line adds exactly the state message to the
trace, whether the line is the whole body or follows other lines. -/
theorem no_metadata_state_only (title : Str → Str) (mp : MetricProcessor)
    (md : GoMap MetricInfo) (label line name value : Str) (hnl : '\n' ∉ line)
    (hk : ¬(trimSpace line = [] ∨ startsWith (trimSpace line) ['#'] = true))
    (hp : parseMetricLine (trimSpace line) = .ok (name, value))
    (hmd : md.get? name = none) :
    ((publishMetrics title mp line md label).mqttClient.sent =
        mp.mqttClient.sent ++
          [⟨mp.config.topicBase ++ (label ++ "_".toList ++ sanitizeMetricName name) ++
              "/state".toList, 0, false, .text value⟩] ∧
      (publishMetrics title mp line md label).publishedConfigs = mp.publishedConfigs) ∧
    (∀ pre : Str,
      (publishMetrics title mp (pre ++ '\n' :: line) md label).mqttClient.sent =
        (publishMetrics title mp pre md label).mqttClient.sent ++
          [⟨mp.config.topicBase ++ (label ++ "_".toList ++ sanitizeMetricName name) ++
              "/state".toList, 0, false, .text value⟩] ∧
      (publishMetrics title mp (pre ++ '\n' :: line) md label).publishedConfigs =
        (publishMetrics title mp pre md label).publishedConfigs) := by
  have hsingle : ∀ m : MetricProcessor,
      (publishMetrics title m line md label).mqttClient.sent =
        m.mqttClient.sent ++
          [⟨m.config.topicBase ++ (label ++ "_".toList ++ sanitizeMetricName name) ++
              "/state".toList, 0, false, .text value⟩] ∧
      (publishMetrics title m line md label).publishedConfigs = m.publishedConfigs := fun m => by
    rw [publishMetrics_single _ _ _ _ _ hnl, lineStep_sample _ _ _ _ _ _ _ hk hp,
      configStep_of_no_metadata _ _ _ _ _ hmd, stateStep_eq]
    exact ⟨rfl, rfl⟩
  refine ⟨hsingle mp, ?_⟩
  intro pre
  rw [publishMetrics_append]
  have := hsingle (publishMetrics title mp pre md label)
  rw [publishMetrics_config] at this
  exact this

/-- Witness for `no_metadata_state_only`: a sample without `HELP`/`TYPE` lines. -/
theorem no_metadata_state_only_witness :
    parseMetricLine (trimSpace "wingbits_gps_fix 1".toList) =
      .ok ("wingbits_gps_fix".toList, "1".toList) ∧
    GoMap.get? (collectMetadata "wingbits_gps_fix 1".toList) "wingbits_gps_fix".toList = none ∧
    (publishMetrics id (exampleProcessor ackReplies) "wingbits_gps_fix 1".toList
      (collectMetadata "wingbits_gps_fix 1".toList) "station1".toList).mqttClient.sent =
      [⟨"homeassistant/sensor/station1_wingbits_gps_fix/state".toList, 0, false,
        .text "1".toList⟩] ∧
    (publishMetrics id (exampleProcessor ackReplies) "wingbits_gps_fix 1".toList
      (collectMetadata "wingbits_gps_fix 1".toList) "station1".toList).publishedConfigs = [] :=
  ⟨by decide, by decide,
    (no_metadata_state_only id (exampleProcessor ackReplies)
      (collectMetadata "wingbits_gps_fix 1".toList) "station1".toList
      "wingbits_gps_fix 1".toList "wingbits_gps_fix".toList "1".toList
      (by decide) (by decide) (by decide) (by decide)).1.1.trans (by decide),
    (no_metadata_state_only id (exampleProcessor ackReplies)
      (collectMetadata "wingbits_gps_fix 1".toList) "station1".toList
      "wingbits_gps_fix 1".toList "wingbits_gps_fix".toList "1".toList
      (by decide) (by decide) (by decide) (by decide)).1.2⟩

/-! ## Retained and non-retained publishes -/

theorem sent_shape_Run (title : Str → Str) (http : Nat → Nat → HttpResult) (n : Nat)
    (config : Config) (replies : Nat → Token) :
    ∀ m ∈ (Run title http ⟨config, [], ⟨replies, []⟩⟩ n).mqttClient.sent,
      (∃ id, m.topic = configTopic config id ∧ m.qos = 1 ∧ m.retained = true) ∨
      (∃ id, m.topic = stateTopic config id ∧ m.qos = 0 ∧ m.retained = false) := by
  have key := Run_preserves (fun m' : MetricProcessor => m'.config = config ∧
      ∀ m ∈ m'.mqttClient.sent,
        (∃ id, m.topic = configTopic config id ∧ m.qos = 1 ∧ m.retained = true) ∨
        (∃ id, m.topic = stateTopic config id ∧ m.qos = 0 ∧ m.retained = false))
    title ?_ ?_ http n ⟨config, [], ⟨replies, []⟩⟩ ?_
  · exact key.2
  · rintro md label name m' ⟨hc, hall⟩
    refine ⟨(configStep_config _ _ _ _ _).trans hc, ?_⟩
    rcases configStep_cases title md label name m' with he | ⟨info, _, _, he⟩
    · rw [he]; exact hall
    · rw [he]
      intro m hm
      rcases List.mem_append.mp hm with hm | hm
      · exact hall m hm
      · rw [List.mem_singleton] at hm
        subst hm
        exact Or.inl ⟨labeledObjectID label name, by rw [hc]; rfl, rfl, rfl⟩
  · rintro label name value m' ⟨hc, hall⟩
    rw [stateStep_eq]
    refine ⟨hc, ?_⟩
    intro m hm
    rcases List.mem_append.mp hm with hm | hm
    · exact hall m hm
    · rw [List.mem_singleton] at hm
      subst hm
      exact Or.inr ⟨labeledObjectID label name, by rw [hc]; rfl, rfl, rfl⟩
  · exact ⟨rfl, by simp⟩

/-- Claim C10: `publishDiscoveryConfig` publishes one message, to
`topicBase + sourceLabel + "_" + sanitize(metricName) + "/config"`, with QoS 1 and
retain true; and in the trace of any run of a freshly constructed processor
every publish to a topic ending in `/config` is retained and every publish to a
topic ending in `/state` is not. -/
theorem discovery_publish_retained (title : Str → Str) (mp : MetricProcessor)
    (name help type label : Str) :
    (publishDiscoveryConfig title mp name help type label).1.mqttClient.sent =
      mp.mqttClient.sent ++
        [⟨mp.config.topicBase ++ (label ++ "_".toList ++ sanitizeMetricName name) ++
            "/config".toList, 1, true,
          .json (discoveryPayload title mp.config name type label)⟩] ∧
    (∀ (config : Config) (replies : Nat → Token) (http : Nat → Nat → HttpResult) (n : Nat),
      ∀ m ∈ (Run title http ⟨config, [], ⟨replies, []⟩⟩ n).mqttClient.sent,
        ("/config".toList <:+ m.topic → m.retained = true) ∧
        ("/state".toList <:+ m.topic → m.retained = false)) := by
  refine ⟨by rw [publishDiscoveryConfig_fst]; rfl, ?_⟩
  intro config replies http n m hm
  rcases sent_shape_Run title http n config replies m hm with ⟨id, ht, _, hr⟩ | ⟨id, ht, _, hr⟩
  · refine ⟨fun _ => hr, fun hs => ?_⟩
    rw [ht] at hs
    exact absurd hs (not_state_suffix_configTopic config id)
  · refine ⟨fun hs => ?_, fun _ => hr⟩
    rw [ht] at hs
    exact absurd hs (not_config_suffix_stateTopic config id)

/-- Witness for `discovery_publish_retained`: the discovery message of a sweep
over `exampleBody` goes to a `/config` topic and is retained. -/
theorem discovery_publish_retained_witness :
    exampleConfigMessage ∈ (Run id exampleHttp (exampleProcessor ackReplies) 1).mqttClient.sent ∧
    "/config".toList <:+ exampleConfigMessage.topic ∧
    exampleConfigMessage.retained = true :=
  ⟨by decide, by decide,
    ((discovery_publish_retained id (exampleProcessor ackReplies) [] [] [] []).2
      exampleConfig ackReplies exampleHttp 1 exampleConfigMessage (by decide)).1 (by decide)⟩

/-! ## Metadata -/

theorem get?_collectLine (m : GoMap MetricInfo) (name line : Str) :
    (collectLine m line).get? name =
      match helpFor name line, typeFor name line with
      | some h, _ => some { (m.get? name).getD MetricInfo.zero with help := h }
      | none, some t => some { (m.get? name).getD MetricInfo.zero with type := t }
      | none, none => m.get? name := by
  unfold collectLine helpFor typeFor
  simp only
  cases hh : helpRegex (trimSpace line) with
  | some r =>
    obtain ⟨k, h⟩ := r
    simp only [GoMap.get?_set]
    by_cases hk : k = name
    · subst hk; simp
    · have hk' : ¬ name = k := fun e => hk e.symm
      simp [hk, hk']
  | none =>
    cases ht : typeRegex (trimSpace line) with
    | some r =>
      obtain ⟨k, t⟩ := r
      simp only [GoMap.get?_set]
      by_cases hk : k = name
      · subst hk; simp
      · have hk' : ¬ name = k := fun e => hk e.symm
        simp [hk, hk']
    | none => simp

theorem get?_foldl_collectLine (name : Str) (lines : List Str) :
    (lines.foldl collectLine []).get? name =
      mergeInfo (lines.filterMap (helpFor name)).getLast? (lines.filterMap (typeFor name)).getLast? := by
  induction lines using List.reverseRecOn with
  | nil => rfl
  | append_singleton ls l ih =>
    rw [List.foldl_append, List.foldl_cons, List.foldl_nil, get?_collectLine, ih,
      List.filterMap_append, List.filterMap_append]
    have hh0 : helpFor name l = none ∨ typeFor name l = none := by
      unfold helpFor typeFor
      cases helpRegex (trimSpace l) <;> simp
    cases hh : helpFor name l with
    | some h =>
      have ht : typeFor name l = none := by
        rcases hh0 with h0 | h0
        · rw [h0] at hh; cases hh
        · exact h0
      simp only [ht, List.filterMap_cons, hh, List.filterMap_nil, List.append_nil,
        List.getLast?_append, List.getLast?_singleton, Option.or_some]
      cases (List.filterMap (helpFor name) ls).getLast? <;>
        cases (List.filterMap (typeFor name) ls).getLast? <;> rfl
    | none =>
      cases ht : typeFor name l with
      | some t =>
        simp only [List.filterMap_cons, hh, ht, List.filterMap_nil, List.append_nil,
          List.getLast?_append, List.getLast?_singleton, Option.or_some]
        cases (List.filterMap (helpFor name) ls).getLast? <;>
          cases (List.filterMap (typeFor name) ls).getLast? <;> rfl
      | none =>
        simp only [List.filterMap_cons, hh, ht, List.filterMap_nil, List.append_nil]

theorem getLast?_filterMap_unique {α β : Type} (f : α → Option β) (l : List α) (b : β)
    (hex : ∃ a ∈ l, f a = some b) (huniq : ∀ a ∈ l, ∀ x, f a = some x → x = b) :
    (l.filterMap f).getLast? = some b := by
  obtain ⟨a, ha, hfa⟩ := hex
  have hmem : b ∈ l.filterMap f := List.mem_filterMap.mpr ⟨a, ha, hfa⟩
  have hne : l.filterMap f ≠ [] := List.ne_nil_of_mem hmem
  rw [List.getLast?_eq_getLast _ hne]
  obtain ⟨a', ha', hfa'⟩ := List.mem_filterMap.mp (List.getLast_mem hne)
  rw [huniq a' ha' _ hfa']

theorem filterMap_eq_nil_of_none {α β : Type} (f : α → Option β) (l : List α)
    (h : ∀ a ∈ l, f a = none) : l.filterMap f = [] := by
  induction l with
  | nil => rfl
  | cons a t ih =>
    rw [List.filterMap_cons, h a (List.mem_cons_self _ _)]
    exact ih (fun x hx => h x (List.mem_cons_of_mem _ hx))

theorem matchLit_help_or_type (r : Str) :
    matchLit "HELP".toList r = none ∨ matchLit "TYPE".toList r = none := by
  cases r with
  | nil => left; rfl
  | cons c t =>
    by_cases hc : c = 'T'
    · left
      subst hc
      simp [matchLit, List.isPrefixOf]
    · right
      have : ('T' == c) = false := by simpa using fun e => hc e.symm
      rw [show "TYPE".toList = 'T' :: "YPE".toList from by decide]
      simp [matchLit, List.isPrefixOf, this]

theorem helpRegex_eq_none_of_typeRegex (s : Str) (r : Str × Str) (h : typeRegex s = some r) :
    helpRegex s = none := by
  unfold typeRegex at h
  unfold helpRegex
  cases h1 : matchLit ['#'] s with
  | none => rfl
  | some r1 =>
    rw [h1] at h
    simp only [Option.bind_eq_bind, Option.some_bind] at h ⊢
    cases h2 : matchSpaces r1 with
    | none => rfl
    | some r2 =>
      rw [h2] at h
      simp only [Option.some_bind] at h ⊢
      rcases matchLit_help_or_type r2 with h3 | h3
      · rw [h3]; rfl
      · rw [h3] at h
        cases h

theorem helpFor_eq_some_iff (name line h : Str) :
    helpFor name line = some h ↔ helpRegex (trimSpace line) = some (name, h) := by
  unfold helpFor
  cases hr : helpRegex (trimSpace line) with
  | none => simp
  | some r =>
    obtain ⟨k, x⟩ := r
    by_cases hk : k = name
    · subst hk; simp
    · simp [hk]

theorem typeFor_eq_some_iff (name line t : Str) :
    typeFor name line = some t ↔ typeRegex (trimSpace line) = some (name, t) := by
  unfold typeFor
  cases hr : helpRegex (trimSpace line) with
  | some r =>
    constructor
    · intro h; cases h
    · intro ht
      rw [helpRegex_eq_none_of_typeRegex _ _ ht] at hr
      cases hr
  | none =>
    simp only
    cases ht : typeRegex (trimSpace line) with
    | none => simp
    | some r =>
      obtain ⟨k, x⟩ := r
      by_cases hk : k = name
      · subst hk; simp
      · simp [hk]

theorem helpFor_eq_none_iff (name line : Str) :
    helpFor name line = none ↔ ∀ x, helpRegex (trimSpace line) ≠ some (name, x) := by
  constructor
  · intro h x hx
    rw [(helpFor_eq_some_iff _ _ _).mpr hx] at h
    cases h
  · intro h
    cases hf : helpFor name line with
    | none => rfl
    | some x => exact absurd ((helpFor_eq_some_iff _ _ _).mp hf) (h x)

theorem typeFor_eq_none_iff (name line : Str) :
    typeFor name line = none ↔ ∀ x, typeRegex (trimSpace line) ≠ some (name, x) := by
  constructor
  · intro h x hx
    rw [(typeFor_eq_some_iff _ _ _).mpr hx] at h
    cases h
  · intro h
    cases hf : typeFor name line with
    | none => rfl
    | some x => exact absurd ((typeFor_eq_some_iff _ _ _).mp hf) (h x)

theorem isSpace_of_isReSpace (c : Char) (h : isReSpace c = true) : isSpace c = true := by
  unfold isReSpace at h
  unfold isSpace
  simp only [Bool.or_eq_true, beq_iff_eq] at h ⊢
  rcases h with (((h | h) | h) | h) | h <;> simp [h]

theorem isWord_not_isReSpace (c : Char) (h : isWord c = true) : isReSpace c = false := by
  unfold isWord at h
  unfold isReSpace
  simp only [Bool.or_eq_true, Bool.and_eq_true, decide_eq_true_eq, beq_iff_eq] at h
  simp only [Bool.or_eq_false_iff, beq_eq_false_iff_ne, ne_eq]
  omega

theorem isWord_not_isSpace (c : Char) (h : isWord c = true) : isSpace c = false := by
  unfold isWord at h
  unfold isSpace
  simp only [Bool.or_eq_true, Bool.and_eq_true, decide_eq_true_eq, beq_iff_eq] at h
  simp only [Bool.or_eq_false_iff, Bool.and_eq_false_iff, beq_eq_false_iff_ne, ne_eq,
    decide_eq_false_iff_not]
  omega

theorem trimSpace_cons_concat (c z : Char) (s : Str) (hc : isSpace c = false)
    (hz : isSpace z = false) : trimSpace (c :: (s ++ [z])) = c :: (s ++ [z]) := by
  unfold trimSpace
  rw [List.dropWhile_cons_of_neg (by simp [hc]), ← List.cons_append,
    List.rdropWhile_concat_neg _ _ _ (by simp [hz])]

theorem matchWord_append_space (n rest : Str) (c : Char) (hn : n ≠ [])
    (hw : ∀ x ∈ n, isWord x = true) (hc : isWord c = false) :
    matchWord (n ++ c :: rest) = some (n, c :: rest) := by
  cases n with
  | nil => exact absurd rfl hn
  | cons a t =>
    have ha : isWord a = true := hw a (List.mem_cons_self _ _)
    unfold matchWord
    simp only [List.cons_append, ha, if_true]
    rw [← List.cons_append, List.takeWhile_append_of_pos hw, List.dropWhile_append_of_pos hw,
      List.takeWhile_cons_of_neg (by simp [hc]), List.dropWhile_cons_of_neg (by simp [hc]),
      List.append_nil]

theorem matchWord_all (t : Str) (ht : t ≠ []) (hw : ∀ x ∈ t, isWord x = true) :
    matchWord t = some (t, []) := by
  cases t with
  | nil => exact absurd rfl ht
  | cons a s =>
    have ha : isWord a = true := hw a (List.mem_cons_self _ _)
    unfold matchWord
    simp only [ha, if_true]
    have h1 := @List.takeWhile_append_of_pos _ isWord (a :: s) [] hw
    have h2 := @List.dropWhile_append_of_pos _ isWord (a :: s) [] hw
    simp only [List.append_nil, List.takeWhile_nil, List.dropWhile_nil] at h1 h2
    rw [h1, h2]

theorem matchSpaces_space_cons (c : Char) (rest : Str) (hc : isReSpace c = false) :
    matchSpaces (' ' :: c :: rest) = some (c :: rest) := by
  unfold matchSpaces
  have h1 : isReSpace ' ' = true := by decide
  simp only [h1, if_true]
  rw [List.dropWhile_cons_of_pos h1, List.dropWhile_cons_of_neg (by simp [hc])]

theorem helpRegex_literal (n h : Str) (hn : n ≠ []) (hw : ∀ x ∈ n, isWord x = true)
    (hh : h ≠ []) (hfirst : ∀ c ∈ h.head?, isSpace c = false)
    (hlast : ∀ c ∈ h.getLast?, isSpace c = false) (hnl : '\n' ∉ h) :
    helpRegex (trimSpace ("# HELP ".toList ++ n ++ ' ' :: h)) = some (n, h) := by
  obtain ⟨a, n', rfl⟩ := List.exists_cons_of_ne_nil hn
  obtain ⟨b, h', hb⟩ := List.exists_cons_of_ne_nil hh
  have ha : isWord a = true := hw a (List.mem_cons_self _ _)
  have hbs : isSpace b = false := hfirst b (by rw [hb]; rfl)
  have hbr : isReSpace b = false := by
    cases hr : isReSpace b with
    | false => rfl
    | true => rw [isSpace_of_isReSpace b hr] at hbs; cases hbs
  have htrim : trimSpace ("# HELP ".toList ++ (a :: n') ++ ' ' :: h) =
      '#' :: ' ' :: 'H' :: 'E' :: 'L' :: 'P' :: ' ' :: (a :: n' ++ ' ' :: h) := by
    have hz : ∃ s z, h = s ++ [z] := ⟨h.dropLast, h.getLast hh, (List.dropLast_append_getLast hh).symm⟩
    obtain ⟨s, z, hsz⟩ := hz
    have hzs : isSpace z = false := hlast z (by rw [hsz]; simp)
    rw [show "# HELP ".toList = '#' :: " HELP ".toList from by decide, hsz]
    have e : '#' :: " HELP ".toList ++ (a :: n') ++ ' ' :: (s ++ [z]) =
        '#' :: ((" HELP ".toList ++ (a :: n') ++ ' ' :: s) ++ [z]) := by simp
    rw [e, trimSpace_cons_concat _ _ _ (by decide) hzs]
    simp
  rw [htrim]
  unfold helpRegex
  have s1 : matchLit ['#'] ('#' :: ' ' :: 'H' :: 'E' :: 'L' :: 'P' :: ' ' :: (a :: n' ++ ' ' :: h)) =
      some (' ' :: 'H' :: 'E' :: 'L' :: 'P' :: ' ' :: (a :: n' ++ ' ' :: h)) := by
    simp [matchLit, List.isPrefixOf]
  have s2 : matchSpaces (' ' :: 'H' :: 'E' :: 'L' :: 'P' :: ' ' :: (a :: n' ++ ' ' :: h)) =
      some ('H' :: 'E' :: 'L' :: 'P' :: ' ' :: (a :: n' ++ ' ' :: h)) :=
    matchSpaces_space_cons _ _ (by decide)
  have s3 : matchLit "HELP".toList ('H' :: 'E' :: 'L' :: 'P' :: ' ' :: (a :: n' ++ ' ' :: h)) =
      some (' ' :: (a :: n' ++ ' ' :: h)) := by
    rw [show "HELP".toList = ['H', 'E', 'L', 'P'] from by decide]
    simp [matchLit, List.isPrefixOf]
  have s4 : matchSpaces (' ' :: (a :: n' ++ ' ' :: h)) = some (a :: n' ++ ' ' :: h) :=
    matchSpaces_space_cons _ _ (isWord_not_isReSpace a ha)
  have s5 : matchWord (a :: n' ++ ' ' :: h) = some (a :: n', ' ' :: h) :=
    matchWord_append_space _ _ _ hn hw (by decide)
  have s6 : matchSpaces (' ' :: h) = some h := by
    rw [hb]; exact matchSpaces_space_cons _ _ hbr
  have s7 : (h.all fun c => c != '\n') = true := by
    rw [List.all_eq_true]
    intro c hc
    have : c ≠ '\n' := fun e => hnl (e ▸ hc)
    simpa using this
  simp only [Option.bind_eq_bind, s1, Option.some_bind, s2, s3, s4, s5, s6, s7, if_true]

theorem typeRegex_literal (n t : Str) (hn : n ≠ []) (hw : ∀ x ∈ n, isWord x = true)
    (ht : t ≠ []) (htw : ∀ x ∈ t, isWord x = true) :
    typeRegex (trimSpace ("# TYPE ".toList ++ n ++ ' ' :: t)) = some (n, t) := by
  obtain ⟨a, n', rfl⟩ := List.exists_cons_of_ne_nil hn
  obtain ⟨b, t', hb⟩ := List.exists_cons_of_ne_nil ht
  have ha : isWord a = true := hw a (List.mem_cons_self _ _)
  have hbw : isWord b = true := htw b (by rw [hb]; exact List.mem_cons_self _ _)
  have htrim : trimSpace ("# TYPE ".toList ++ (a :: n') ++ ' ' :: t) =
      '#' :: ' ' :: 'T' :: 'Y' :: 'P' :: 'E' :: ' ' :: (a :: n' ++ ' ' :: t) := by
    have hz : ∃ s z, t = s ++ [z] := ⟨t.dropLast, t.getLast ht, (List.dropLast_append_getLast ht).symm⟩
    obtain ⟨s, z, hsz⟩ := hz
    have hzs : isSpace z = false := isWord_not_isSpace z (htw z (by rw [hsz]; simp))
    rw [show "# TYPE ".toList = '#' :: " TYPE ".toList from by decide, hsz]
    have e : '#' :: " TYPE ".toList ++ (a :: n') ++ ' ' :: (s ++ [z]) =
        '#' :: ((" TYPE ".toList ++ (a :: n') ++ ' ' :: s) ++ [z]) := by simp
    rw [e, trimSpace_cons_concat _ _ _ (by decide) hzs]
    simp
  rw [htrim]
  unfold typeRegex
  have s1 : matchLit ['#'] ('#' :: ' ' :: 'T' :: 'Y' :: 'P' :: 'E' :: ' ' :: (a :: n' ++ ' ' :: t)) =
      some (' ' :: 'T' :: 'Y' :: 'P' :: 'E' :: ' ' :: (a :: n' ++ ' ' :: t)) := by
    simp [matchLit, List.isPrefixOf]
  have s2 : matchSpaces (' ' :: 'T' :: 'Y' :: 'P' :: 'E' :: ' ' :: (a :: n' ++ ' ' :: t)) =
      some ('T' :: 'Y' :: 'P' :: 'E' :: ' ' :: (a :: n' ++ ' ' :: t)) :=
    matchSpaces_space_cons _ _ (by decide)
  have s3 : matchLit "TYPE".toList ('T' :: 'Y' :: 'P' :: 'E' :: ' ' :: (a :: n' ++ ' ' :: t)) =
      some (' ' :: (a :: n' ++ ' ' :: t)) := by
    rw [show "TYPE".toList = ['T', 'Y', 'P', 'E'] from by decide]
    simp [matchLit, List.isPrefixOf]
  have s4 : matchSpaces (' ' :: (a :: n' ++ ' ' :: t)) = some (a :: n' ++ ' ' :: t) :=
    matchSpaces_space_cons _ _ (isWord_not_isReSpace a ha)
  have s5 : matchWord (a :: n' ++ ' ' :: t) = some (a :: n', ' ' :: t) :=
    matchWord_append_space _ _ _ hn hw (by decide)
  have s6 : matchSpaces (' ' :: t) = some t := by
    rw [hb]; exact matchSpaces_space_cons _ _ (isWord_not_isReSpace b hbw)
  have s7 : matchWord t = some (t, []) := matchWord_all t ht htw
  simp only [Option.bind_eq_bind, s1, Option.some_bind, s2, s3, s4, s5, s6, s7,
    List.isEmpty_nil, if_true]

/-- Claim C8, amended: for a metric name `n` of one or more word characters
`[0-9A-Za-z_]`, a help text `h` that is non-empty, has no newline and neither
starts nor ends with white space, and a type `t` of one or more word characters:
on a body whose lines include `# HELP n h` and `# TYPE n t`, and in which no
other `HELP` or `TYPE` line for `n` carries a different text, `collectMetadata`
maps `n` to `{Help: h, Type: t}`; with only the `HELP` line the type is empty,
with only the `TYPE` line the help is empty; and a name for which no line
matches either pattern has no entry. -/
theorem collectMetadata_help_type (body n h t : Str)
    (hn : n ≠ [] ∧ ∀ x ∈ n, isWord x = true)
    (hh : h ≠ [] ∧ (∀ c ∈ h.head?, isSpace c = false) ∧
      (∀ c ∈ h.getLast?, isSpace c = false) ∧ '\n' ∉ h)
    (ht : t ≠ [] ∧ ∀ x ∈ t, isWord x = true) :
    (("# HELP ".toList ++ n ++ ' ' :: h) ∈ splitLines body →
      ("# TYPE ".toList ++ n ++ ' ' :: t) ∈ splitLines body →
      (∀ l ∈ splitLines body, ∀ x, helpRegex (trimSpace l) = some (n, x) → x = h) →
      (∀ l ∈ splitLines body, ∀ x, typeRegex (trimSpace l) = some (n, x) → x = t) →
      (collectMetadata body).get? n = some ⟨h, t⟩) ∧
    (("# HELP ".toList ++ n ++ ' ' :: h) ∈ splitLines body →
      (∀ l ∈ splitLines body, ∀ x, helpRegex (trimSpace l) = some (n, x) → x = h) →
      (∀ l ∈ splitLines body, ∀ x, typeRegex (trimSpace l) ≠ some (n, x)) →
      (collectMetadata body).get? n = some ⟨h, []⟩) ∧
    (("# TYPE ".toList ++ n ++ ' ' :: t) ∈ splitLines body →
      (∀ l ∈ splitLines body, ∀ x, typeRegex (trimSpace l) = some (n, x) → x = t) →
      (∀ l ∈ splitLines body, ∀ x, helpRegex (trimSpace l) ≠ some (n, x)) →
      (collectMetadata body).get? n = some ⟨[], t⟩) ∧
    ((∀ l ∈ splitLines body, ∀ x, helpRegex (trimSpace l) ≠ some (n, x)) →
      (∀ l ∈ splitLines body, ∀ x, typeRegex (trimSpace l) ≠ some (n, x)) →
      (collectMetadata body).get? n = none) := by
  have hlit := helpRegex_literal n h hn.1 hn.2 hh.1 hh.2.1 hh.2.2.1 hh.2.2.2
  have tlit := typeRegex_literal n t hn.1 hn.2 ht.1 ht.2
  have hsome : ("# HELP ".toList ++ n ++ ' ' :: h) ∈ splitLines body →
      (∀ l ∈ splitLines body, ∀ x, helpRegex (trimSpace l) = some (n, x) → x = h) →
      ((splitLines body).filterMap (helpFor n)).getLast? = some h := fun hm hu =>
    getLast?_filterMap_unique _ _ _ ⟨_, hm, (helpFor_eq_some_iff _ _ _).mpr hlit⟩
      (fun a ha x hx => hu a ha x ((helpFor_eq_some_iff _ _ _).mp hx))
  have tsome : ("# TYPE ".toList ++ n ++ ' ' :: t) ∈ splitLines body →
      (∀ l ∈ splitLines body, ∀ x, typeRegex (trimSpace l) = some (n, x) → x = t) →
      ((splitLines body).filterMap (typeFor n)).getLast? = some t := fun hm hu =>
    getLast?_filterMap_unique _ _ _ ⟨_, hm, (typeFor_eq_some_iff _ _ _).mpr tlit⟩
      (fun a ha x hx => hu a ha x ((typeFor_eq_some_iff _ _ _).mp hx))
  have hnone : (∀ l ∈ splitLines body, ∀ x, helpRegex (trimSpace l) ≠ some (n, x)) →
      ((splitLines body).filterMap (helpFor n)).getLast? = none := fun hno => by
    rw [filterMap_eq_nil_of_none _ _ (fun a ha => (helpFor_eq_none_iff _ _).mpr (hno a ha))]
    rfl
  have tnone : (∀ l ∈ splitLines body, ∀ x, typeRegex (trimSpace l) ≠ some (n, x)) →
      ((splitLines body).filterMap (typeFor n)).getLast? = none := fun hno => by
    rw [filterMap_eq_nil_of_none _ _ (fun a ha => (typeFor_eq_none_iff _ _).mpr (hno a ha))]
    rfl
  unfold collectMetadata
  rw [get?_foldl_collectLine]
  refine ⟨?_, ?_, ?_, ?_⟩
  · intro h1 h2 h3 h4
    rw [hsome h1 h3, tsome h2 h4]; rfl
  · intro h1 h3 h4
    rw [hsome h1 h3, tnone h4]; rfl
  · intro h2 h4 h3
    rw [hnone h3, tsome h2 h4]; rfl
  · intro h3 h4
    rw [hnone h3, tnone h4]; rfl

/-- Witness for `collectMetadata_help_type`: the example of the specification,
`# HELP wingbits_gps_fix GPS fix status` with `# TYPE wingbits_gps_fix gauge`. -/
theorem collectMetadata_help_type_witness :
    GoMap.get? (collectMetadata gpsFixBody) "wingbits_gps_fix".toList =
      some ⟨"GPS fix status".toList, "gauge".toList⟩ := by
  have hl : ∀ l ∈ splitLines gpsFixBody,
      l = "# HELP wingbits_gps_fix GPS fix status".toList ∨
      l = "# TYPE wingbits_gps_fix gauge".toList ∨ l = "wingbits_gps_fix 1".toList := by
    intro l hl
    rw [show splitLines gpsFixBody = ["# HELP wingbits_gps_fix GPS fix status".toList,
      "# TYPE wingbits_gps_fix gauge".toList, "wingbits_gps_fix 1".toList] from by decide] at hl
    simpa using hl
  have e1 : helpRegex (trimSpace "# HELP wingbits_gps_fix GPS fix status".toList) =
      some ("wingbits_gps_fix".toList, "GPS fix status".toList) := by decide
  have e2 : helpRegex (trimSpace "# TYPE wingbits_gps_fix gauge".toList) = none := by decide
  have e3 : helpRegex (trimSpace "wingbits_gps_fix 1".toList) = none := by decide
  have f1 : typeRegex (trimSpace "# HELP wingbits_gps_fix GPS fix status".toList) = none := by
    decide
  have f2 : typeRegex (trimSpace "# TYPE wingbits_gps_fix gauge".toList) =
      some ("wingbits_gps_fix".toList, "gauge".toList) := by decide
  have f3 : typeRegex (trimSpace "wingbits_gps_fix 1".toList) = none := by decide
  refine (collectMetadata_help_type gpsFixBody "wingbits_gps_fix".toList
    "GPS fix status".toList "gauge".toList (by decide) (by decide) (by decide)).1
    (by decide) (by decide) ?_ ?_
  · intro l hm x hx
    rcases hl l hm with rfl | rfl | rfl
    · rw [e1] at hx; cases hx; rfl
    · rw [e2] at hx; cases hx
    · rw [e3] at hx; cases hx
  · intro l hm x hx
    rcases hl l hm with rfl | rfl | rfl
    · rw [f1] at hx; cases hx
    · rw [f2] at hx; cases hx; rfl
    · rw [f3] at hx; cases hx

/-- Claim C8 as stated fails for metric names with a character outside
`[0-9A-Za-z_]`: the lines `# HELP wingbits.altitude-ft Altitude` and
`# TYPE wingbits.altitude-ft gauge` give no entry at all, and neither do the
lines for the name `job:up`. -/
theorem collectMetadata_counterexample :
    collectMetadata
      "# HELP wingbits.altitude-ft Altitude\n# TYPE wingbits.altitude-ft gauge".toList = [] ∧
    GoMap.get? (collectMetadata
      "# HELP wingbits.altitude-ft Altitude\n# TYPE wingbits.altitude-ft gauge".toList)
      "wingbits.altitude-ft".toList ≠ some ⟨"Altitude".toList, "gauge".toList⟩ ∧
    GoMap.get? (collectMetadata "# HELP job:up Up\n# TYPE job:up gauge".toList)
      "job:up".toList = none := by
  decide

/-! ## Sanitizing -/

/-- Claim C11: `sanitizeMetricName` is idempotent and is the character-wise map
that sends `.` and `-` to `_` and every other character to itself; so the output
has the length of the input and contains neither `.` nor `-`. -/
theorem sanitizeMetricName_charwise (x : Str) :
    sanitizeMetricName (sanitizeMetricName x) = sanitizeMetricName x ∧
    sanitizeMetricName x = x.map (fun c => if c = '.' ∨ c = '-' then '_' else c) ∧
    (sanitizeMetricName x).length = x.length ∧
    '.' ∉ sanitizeMetricName x ∧ '-' ∉ sanitizeMetricName x := by
  refine ⟨sanitizeMetricName_idem x, sanitizeMetricName_eq_map x, ?_, ?_⟩
  · rw [sanitizeMetricName_eq_map, List.length_map]
  · exact (sanitizeMetricName_eq_self_iff _).mp (sanitizeMetricName_idem x)

/-- Witness for `sanitizeMetricName_charwise`: the metric name of the specification's example. -/
theorem sanitizeMetricName_charwise_witness :
    sanitizeMetricName "wingbits.altitude-ft".toList = "wingbits_altitude_ft".toList ∧
    (sanitizeMetricName "wingbits.altitude-ft".toList).length = 20 :=
  ⟨(sanitizeMetricName_charwise "wingbits.altitude-ft".toList).2.1.trans (by decide),
    (sanitizeMetricName_charwise "wingbits.altitude-ft".toList).2.2.1.trans (by decide)⟩

/-! ## The published set only grows -/

theorem isPublished_stateStep (label name value : Str) (mp : MetricProcessor) (id : Str) :
    (stateStep label name value mp).isPublished id = mp.isPublished id := by
  rfl

theorem isPublished_configStep_new (title : Str → Str) (md : GoMap MetricInfo) (label name : Str)
    (mp : MetricProcessor) (id : Str)
    (h : (configStep title md label name mp).isPublished id = true) :
    mp.isPublished id = true ∨
      (id = labeledObjectID label name ∧ ∃ info, md.get? name = some info) := by
  rcases configStep_cases title md label name mp with he | ⟨info, _, hm, he⟩
  · rw [he] at h; exact Or.inl h
  · rw [he] at h
    by_cases hf : (mp.mqttClient.replies mp.mqttClient.sent.length).failed = true
    · simp only [hf, if_true] at h
      exact Or.inl h
    · simp only [hf, Bool.false_eq_true, if_false] at h
      have hs := isPublished_set mp (labeledObjectID label name) id
      unfold MetricProcessor.isPublished at hs h ⊢
      simp only at hs h
      rw [hs, Bool.or_eq_true, decide_eq_true_eq] at h
      rcases h with h | h
      · exact Or.inr ⟨h, info, hm⟩
      · exact Or.inl h

theorem isPublished_lineStep_mono (title : Str → Str) (md : GoMap MetricInfo) (label : Str)
    (mp : MetricProcessor) (line id : Str) (h : mp.isPublished id = true) :
    (lineStep title md label mp line).isPublished id = true :=
  lineStep_preserves (fun m => m.isPublished id = true) title
    (fun _ _ _ _ hp => isPublished_configStep_mono _ _ _ _ _ _ hp)
    (fun _ _ _ _ hp => hp) md label mp line h

theorem isPublished_lineStep_new (title : Str → Str) (md : GoMap MetricInfo) (label : Str)
    (mp : MetricProcessor) (line id : Str)
    (h : (lineStep title md label mp line).isPublished id = true) :
    mp.isPublished id = true ∨
      ∃ name value info, isSampleLine (trimSpace line) = true ∧
        parseMetricLine (trimSpace line) = .ok (name, value) ∧ md.get? name = some info ∧
        id = labeledObjectID label name := by
  unfold lineStep at h
  simp only at h
  split_ifs at h with hk
  · exact Or.inl h
  · cases hp : parseMetricLine (trimSpace line) with
    | error e => rw [hp] at h; exact Or.inl h
    | ok r =>
      obtain ⟨name, value⟩ := r
      rw [hp] at h
      simp only at h
      rw [isPublished_stateStep] at h
      rcases isPublished_configStep_new _ _ _ _ _ _ h with h1 | ⟨hid, info, hm⟩
      · exact Or.inl h1
      · refine Or.inr ⟨name, value, info, ?_, rfl, hm, hid⟩
        rw [isSampleLine_iff]
        refine ⟨hk, ?_⟩
        by_contra hs
        obtain ⟨e, he⟩ := (parseMetricLine_error_iff _).mpr hs
        rw [he] at hp
        cases hp

theorem isPublished_foldl_new (title : Str → Str) (md : GoMap MetricInfo) (label : Str)
    (lines : List Str) (mp : MetricProcessor) (id : Str)
    (h : (lines.foldl (lineStep title md label) mp).isPublished id = true) :
    mp.isPublished id = true ∨
      ∃ line ∈ lines, ∃ name value info, isSampleLine (trimSpace line) = true ∧
        parseMetricLine (trimSpace line) = .ok (name, value) ∧ md.get? name = some info ∧
        id = labeledObjectID label name := by
  induction lines generalizing mp with
  | nil => exact Or.inl h
  | cons l ls ih =>
    rw [List.foldl_cons] at h
    rcases ih _ h with h1 | ⟨line, hl, rest⟩
    · rcases isPublished_lineStep_new _ _ _ _ _ _ h1 with h2 | h2
      · exact Or.inl h2
      · exact Or.inr ⟨l, List.mem_cons_self _ _, h2⟩
    · exact Or.inr ⟨line, List.mem_cons_of_mem _ hl, rest⟩

/-- Claim C12: `publishedConfigs` is empty in a newly constructed processor, and
a call of `publishMetrics` only adds to it: an identifier published before the
call is published after it, and an identifier published only after the call is
`sourceLabel + "_" + sanitize(name)` for a sample line of the body whose name has
an entry in the metadata map. -/
theorem publishedConfigs_only_grows (title : Str → Str) (mp : MetricProcessor) (body : Str)
    (md : GoMap MetricInfo) (label : Str) :
    (∀ (config : Config) (outcome : Except Str (Nat → Token)) (mp0 : MetricProcessor),
      NewMetricProcessor config outcome = .ok mp0 → mp0.publishedConfigs = []) ∧
    (∀ id : Str, mp.isPublished id = true →
      (publishMetrics title mp body md label).isPublished id = true) ∧
    (∀ id : Str, (publishMetrics title mp body md label).isPublished id = true →
      mp.isPublished id = false →
      ∃ line ∈ sampleLines body, ∃ name value info,
        parseMetricLine line = .ok (name, value) ∧ md.get? name = some info ∧
        id = label ++ "_".toList ++ sanitizeMetricName name) := by
  refine ⟨?_, ?_, ?_⟩
  · intro config outcome mp0 h
    unfold NewMetricProcessor connectMQTT at h
    cases outcome with
    | error e => cases h
    | ok replies =>
      simp only at h
      cases h
      rfl
  · intro id h
    exact publishMetrics_preserves (fun m => m.isPublished id = true) title
      (fun _ _ _ _ hp => isPublished_configStep_mono _ _ _ _ _ _ hp)
      (fun _ _ _ _ hp => hp) body md label mp h
  · intro id h hnot
    rw [publishMetrics_eq_foldl] at h
    rcases isPublished_foldl_new _ _ _ _ _ _ h with h1 | ⟨line, hl, name, value, info, hs, hp, hm, hid⟩
    · rw [h1] at hnot; cases hnot
    · refine ⟨trimSpace line, ?_, name, value, info, hp, hm, hid⟩
      unfold sampleLines
      rw [List.mem_filter]
      exact ⟨List.mem_map_of_mem _ hl, hs⟩

/-- Witness for `publishedConfigs_only_grows`: the identifier that a cycle over
`exampleBody` adds comes from a sample of that body with metadata. -/
theorem publishedConfigs_only_grows_witness :
    (exampleProcessor ackReplies).isPublished "station1_wingbits_gps_fix".toList = false ∧
    (publishMetrics id (exampleProcessor ackReplies) exampleBody (collectMetadata exampleBody)
      "station1".toList).isPublished "station1_wingbits_gps_fix".toList = true ∧
    ∃ line ∈ sampleLines exampleBody, ∃ name value info,
      parseMetricLine line = .ok (name, value) ∧
      GoMap.get? (collectMetadata exampleBody) name = some info ∧
      "station1_wingbits_gps_fix".toList =
        "station1".toList ++ "_".toList ++ sanitizeMetricName name :=
  ⟨by decide, by decide,
    (publishedConfigs_only_grows id (exampleProcessor ackReplies) exampleBody
      (collectMetadata exampleBody) "station1".toList).2.2 _ (by decide) (by decide)⟩

/-! ## A failed fetch -/

theorem fetchPrometheusMetrics_error_iff (h : HttpResult) :
    (∃ e, fetchPrometheusMetrics h = .error e) ↔
      (∃ c, h = .transportError c) ∨
      (∃ st b, h = .response st b ∧ (st ≠ 200 ∨ ∃ c, b = .error c)) := by
  cases h with
  | transportError c =>
    exact ⟨fun _ => Or.inl ⟨c, rfl⟩, fun _ => ⟨.fetch c, rfl⟩⟩
  | response st b =>
    unfold fetchPrometheusMetrics
    by_cases hst : st = 200
    · subst hst
      cases b with
      | error c =>
        exact ⟨fun _ => Or.inr ⟨200, .error c, rfl, Or.inr ⟨c, rfl⟩⟩, fun _ => ⟨.readBody c, rfl⟩⟩
      | ok body =>
        constructor
        · rintro ⟨e, he⟩
          simp at he
        · rintro (⟨c, hc⟩ | ⟨st, b, hr, hst | ⟨c, hc⟩⟩)
          · cases hc
          · cases hr; exact absurd rfl hst
          · cases hr; cases hc
    · exact ⟨fun _ => Or.inr ⟨st, b, rfl, Or.inl hst⟩,
        fun _ => ⟨.statusCode st, by simp only [ne_eq, hst, not_false_eq_true, if_true]⟩⟩

theorem processMetrics_of_error (title : Str → Str) (mp : MetricProcessor) (http : HttpResult)
    (label : Str) (h : ∃ e, fetchPrometheusMetrics http = .error e) :
    processMetrics title mp http label = mp := by
  obtain ⟨e, he⟩ := h
  unfold processMetrics
  rw [he]

theorem processSources_shift (title : Str → Str) (http : Nat → HttpResult) (k : Nat)
    (sources : List Source) (j : Nat) (mp : MetricProcessor) (hj : k ≤ j) :
    processSources title http mp (j + 1) sources =
      processSources title (skipAt k http) mp j sources := by
  induction sources generalizing j mp with
  | nil => rfl
  | cons s rest ih =>
    have e : skipAt k http j = http (j + 1) := by
      unfold skipAt
      rw [if_neg (by omega)]
    rw [processSources, processSources, e, ih (j + 1) _ (by omega)]

theorem processSources_skip (title : Str → Str) (http : Nat → HttpResult)
    (pre : List Source) (s : Source) (post : List Source) (i : Nat) (mp : MetricProcessor)
    (h : ∃ e, fetchPrometheusMetrics (http (i + pre.length)) = .error e) :
    processSources title http mp i (pre ++ s :: post) =
      processSources title (skipAt (i + pre.length) http) mp i (pre ++ post) := by
  induction pre generalizing i mp with
  | nil =>
    simp only [List.nil_append, List.length_nil, Nat.add_zero] at h ⊢
    rw [processSources, processMetrics_of_error _ _ _ _ h]
    exact processSources_shift title http i post i mp (Nat.le_refl _)
  | cons p rest ih =>
    have e : skipAt (i + (p :: rest).length) http i = http i := by
      unfold skipAt
      rw [if_pos (by simp)]
    have hlen : i + (p :: rest).length = (i + 1) + rest.length := by
      simp only [List.length_cons]; omega
    rw [List.cons_append, List.cons_append, processSources, processSources, e, hlen]
    rw [hlen] at h
    exact ih (i + 1) _ h

theorem configStep_withSources (title : Str → Str) (md : GoMap MetricInfo) (label name : Str)
    (sources : List Source) (mp : MetricProcessor) :
    configStep title md label name (withSources sources mp) =
      withSources sources (configStep title md label name mp) := by
  by_cases hp : mp.isPublished (labeledObjectID label name) = true
  · have hp2 : (withSources sources mp).isPublished (labeledObjectID label name) = true := hp
    rw [configStep_of_published _ _ _ _ (withSources sources mp) hp2,
      configStep_of_published _ _ _ _ mp hp]
  · have hp' : mp.isPublished (labeledObjectID label name) = false := by simpa using hp
    have hp2 : (withSources sources mp).isPublished (labeledObjectID label name) = false := hp'
    cases hm : md.get? name with
    | none =>
      rw [configStep_of_no_metadata _ _ _ _ (withSources sources mp) hm,
        configStep_of_no_metadata _ _ _ _ mp hm]
    | some info =>
      rw [configStep_of_new _ _ _ _ (withSources sources mp) info hp2 hm,
        configStep_of_new _ _ _ _ mp info hp' hm]
      rfl

theorem lineStep_withSources (title : Str → Str) (md : GoMap MetricInfo) (label : Str)
    (sources : List Source) (mp : MetricProcessor) (line : Str) :
    lineStep title md label (withSources sources mp) line =
      withSources sources (lineStep title md label mp line) := by
  unfold lineStep
  simp only
  split_ifs
  · rfl
  · cases parseMetricLine (trimSpace line) with
    | error e => rfl
    | ok r =>
      simp only
      rw [configStep_withSources]
      rfl

theorem publishMetrics_withSources (title : Str → Str) (mp : MetricProcessor) (body : Str)
    (md : GoMap MetricInfo) (label : Str) (sources : List Source) :
    publishMetrics title (withSources sources mp) body md label =
      withSources sources (publishMetrics title mp body md label) := by
  rw [publishMetrics_eq_foldl, publishMetrics_eq_foldl]
  generalize splitLines body = lines
  induction lines generalizing mp with
  | nil => rfl
  | cons l ls ih => rw [List.foldl_cons, List.foldl_cons, lineStep_withSources, ih]

theorem processSources_withSources (title : Str → Str) (http : Nat → HttpResult)
    (sources : List Source) (l : List Source) (i : Nat) (mp : MetricProcessor) :
    processSources title http (withSources sources mp) i l =
      withSources sources (processSources title http mp i l) := by
  induction l generalizing i mp with
  | nil => rfl
  | cons s rest ih =>
    rw [processSources, processSources, ← ih]
    congr 1
    unfold processMetrics
    cases fetchPrometheusMetrics (http i) with
    | error e => rfl
    | ok body => exact publishMetrics_withSources _ _ _ _ _ _

/-- Claim C13: when the fetch for one configured source fails in a sweep, that
source leaves the processor as it is (no publish, `publishedConfigs` unchanged),
and the sweep is the sweep over the other sources in their order: the processor
it yields is the one the sweep yields for the configuration without the failing
source.  A fetch fails on a transport error, a status other than 200, or an
error reading the body. -/
theorem fetch_failure_skips_source (title : Str → Str) (mp : MetricProcessor)
    (http : Nat → HttpResult) (pre : List Source) (s : Source) (post : List Source)
    (hs : mp.config.sources = pre ++ s :: post)
    (hfail : ∃ e, fetchPrometheusMetrics (http pre.length) = .error e) :
    (∀ mp1 : MetricProcessor, processMetrics title mp1 (http pre.length) s.label = mp1) ∧
    processAllSources title mp http =
      processSources title (skipAt pre.length http) mp 0 (pre ++ post) ∧
    processAllSources title (withSources (pre ++ post) mp) (skipAt pre.length http) =
      withSources (pre ++ post) (processAllSources title mp http) ∧
    (∀ r : HttpResult, (∃ e, fetchPrometheusMetrics r = .error e) ↔
      (∃ c, r = .transportError c) ∨
      (∃ st b, r = .response st b ∧ (st ≠ 200 ∨ ∃ c, b = .error c))) := by
  have hb : processAllSources title mp http =
      processSources title (skipAt pre.length http) mp 0 (pre ++ post) := by
    unfold processAllSources
    rw [hs]
    have := processSources_skip title http pre s post 0 mp (by simpa using hfail)
    simpa using this
  refine ⟨fun mp1 => processMetrics_of_error _ _ _ _ hfail, hb, ?_, fetchPrometheusMetrics_error_iff⟩
  rw [hb]
  exact processSources_withSources title _ (pre ++ post) (pre ++ post) 0 mp

/-- Witness for `fetch_failure_skips_source`: with two sources of which the
first answers 503, the sweep sends what the sweep over the second source alone
sends. -/
theorem fetch_failure_skips_source_witness :
    fetchPrometheusMetrics (firstFailsHttp 0) = .error (.statusCode 503) ∧
    (processAllSources id twoSourceProcessor firstFailsHttp).mqttClient.sent =
      (processAllSources id (exampleProcessor ackReplies) (skipAt 0 firstFailsHttp)
        ).mqttClient.sent ∧
    (processAllSources id twoSourceProcessor firstFailsHttp).mqttClient.sent.length = 3 :=
  ⟨by decide,
    (congrArg (fun m : MetricProcessor => m.mqttClient.sent)
      (fetch_failure_skips_source id twoSourceProcessor firstFailsHttp []
        ⟨"http://10.0.0.2:8088/metrics".toList, "station2".toList⟩
        [⟨"http://localhost:8088/metrics".toList, "station1".toList⟩] rfl
        ⟨.statusCode 503, by decide⟩).2.2.1).symm,
    by decide⟩

/-! ## Icons -/

theorem contains_iff_infix (s sub : Str) : contains s sub = true ↔ sub <:+: s := by
  unfold contains
  rw [List.any_eq_true]
  constructor
  · rintro ⟨t, ht, hp⟩
    rw [List.mem_tails] at ht
    exact List.infix_iff_prefix_suffix.mpr ⟨t, List.isPrefixOf_iff_prefix.mp hp, ht⟩
  · intro h
    obtain ⟨t, hp, ht⟩ := List.infix_iff_prefix_suffix.mp h
    exact ⟨t, (List.mem_tails _ _).mpr ht, List.isPrefixOf_iff_prefix.mpr hp⟩

/-- Claim C14: `determineIcon` returns `mdi:connection` when the name contains
`connection`; otherwise `mdi:counter` when the name contains `total` or the type
is `counter`; otherwise `mdi:tag` when the name contains `version`; otherwise
`mdi:gauge`.  The result is never empty. -/
theorem determineIcon_rules (metricName metricType : Str) :
    ("connection".toList <:+: metricName →
      determineIcon metricName metricType = "mdi:connection".toList) ∧
    (¬ "connection".toList <:+: metricName →
      ("total".toList <:+: metricName ∨ metricType = "counter".toList) →
      determineIcon metricName metricType = "mdi:counter".toList) ∧
    (¬ "connection".toList <:+: metricName →
      ¬ ("total".toList <:+: metricName ∨ metricType = "counter".toList) →
      "version".toList <:+: metricName →
      determineIcon metricName metricType = "mdi:tag".toList) ∧
    (¬ "connection".toList <:+: metricName →
      ¬ ("total".toList <:+: metricName ∨ metricType = "counter".toList) →
      ¬ "version".toList <:+: metricName →
      determineIcon metricName metricType = "mdi:gauge".toList) ∧
    determineIcon metricName metricType ≠ [] := by
  have hc := contains_iff_infix metricName "connection".toList
  have ht := contains_iff_infix metricName "total".toList
  have hv := contains_iff_infix metricName "version".toList
  have hcond : (contains metricName "total".toList || metricType == "counter".toList) = true ↔
      ("total".toList <:+: metricName ∨ metricType = "counter".toList) := by
    rw [Bool.or_eq_true, ht, beq_iff_eq]
  refine ⟨?_, ?_, ?_, ?_, ?_⟩
  · intro h1
    unfold determineIcon
    rw [if_pos (hc.mpr h1)]
  · intro h1 h2
    unfold determineIcon
    rw [if_neg (fun h => h1 (hc.mp h)), if_pos (hcond.mpr h2)]
  · intro h1 h2 h3
    unfold determineIcon
    rw [if_neg (fun h => h1 (hc.mp h)), if_neg (fun h => h2 (hcond.mp h)), if_pos (hv.mpr h3)]
  · intro h1 h2 h3
    unfold determineIcon
    rw [if_neg (fun h => h1 (hc.mp h)), if_neg (fun h => h2 (hcond.mp h)),
      if_neg (fun h => h3 (hv.mp h))]
  · unfold determineIcon
    split_ifs <;> decide

/-- Witness for `determineIcon_rules`: a name with `connection` and `total` gets
the connection icon, and a gauge named `..._total` the counter icon. -/
theorem determineIcon_rules_witness :
    "connection".toList <:+: "wingbits_connection_total".toList ∧
    determineIcon "wingbits_connection_total".toList "gauge".toList = "mdi:connection".toList ∧
    determineIcon "wingbits_messages_total".toList "gauge".toList = "mdi:counter".toList :=
  ⟨by decide,
    (determineIcon_rules "wingbits_connection_total".toList "gauge".toList).1 (by decide),
    (determineIcon_rules "wingbits_messages_total".toList "gauge".toList).2.1 (by decide)
      (Or.inl (by decide))⟩

/-! ## Configuration -/

theorem validateSources_ok_iff (i : Nat) (sources : List Source) :
    validateSources i sources = .ok () ↔ ∀ s ∈ sources, s.url ≠ [] ∧ s.label ≠ [] := by
  induction sources generalizing i with
  | nil => simp [validateSources]
  | cons s rest ih =>
    unfold validateSources
    by_cases hu : s.url = []
    · simp [hu]
    · by_cases hl : s.label = []
      · simp [hu, hl]
      · simp only [hu, hl, if_false, ih, List.mem_cons, forall_eq_or_imp, ne_eq,
          not_false_eq_true, and_self, true_and]

theorem validateConfig_ok_iff (config : Config) :
    validateConfig config = .ok () ↔
      config.sources ≠ [] ∧ (∀ s ∈ config.sources, s.url ≠ [] ∧ s.label ≠ []) ∧
      config.broker ≠ [] ∧ config.clientID ≠ [] ∧ config.topicBase ≠ [] ∧
      0 < config.fetchIntervalSeconds := by
  unfold validateConfig
  by_cases h0 : config.sources.length = 0
  · have : config.sources = [] := List.length_eq_zero.mp h0
    simp [h0, this]
  · have hne : config.sources ≠ [] := fun e => h0 (by rw [e]; rfl)
    rw [if_neg h0]
    cases hv : validateSources 0 config.sources with
    | error e =>
      have : ¬ ∀ s ∈ config.sources, s.url ≠ [] ∧ s.label ≠ [] := by
        rw [← validateSources_ok_iff 0, hv]
        intro h; cases h
      simp [this]
    | ok u =>
      have hs : ∀ s ∈ config.sources, s.url ≠ [] ∧ s.label ≠ [] :=
        (validateSources_ok_iff 0 _).mp hv
      simp only
      by_cases hb : config.broker = []
      · simp [hb]
      · by_cases hc : config.clientID = []
        · simp [hb, hc]
        · by_cases ht : config.topicBase = []
          · simp [hb, hc, ht]
          · by_cases hi : config.fetchIntervalSeconds ≤ 0
            · have : ¬ 0 < config.fetchIntervalSeconds := by omega
              simp [hb, hc, ht, hi, this]
            · have : 0 < config.fetchIntervalSeconds := by omega
              simp only [hb, hc, ht, hi, if_false, true_iff]
              exact ⟨hne, hs, hb, hc, ht, this⟩

/-- Claim C15: `validateConfig` returns no error exactly when the source list
is non-empty, every source has a non-empty url and label, broker, client ID and
topic base are non-empty and the fetch interval is positive; username and
password do not enter the result. -/
theorem validateConfig_accepts_iff (config : Config) :
    (validateConfig config = .ok () ↔
      config.sources ≠ [] ∧ (∀ s ∈ config.sources, s.url ≠ [] ∧ s.label ≠ []) ∧
      config.broker ≠ [] ∧ config.clientID ≠ [] ∧ config.topicBase ≠ [] ∧
      0 < config.fetchIntervalSeconds) ∧
    (∀ username password : Str,
      validateConfig { config with username := username, password := password } =
        validateConfig config) :=
  ⟨validateConfig_ok_iff config, fun _ _ => rfl⟩

/-- Witness for `validateConfig_accepts_iff`: `exampleConfig`, which has no
username and no password, is accepted; without a topic base it is rejected. -/
theorem validateConfig_accepts_iff_witness :
    exampleConfig.username = [] ∧ exampleConfig.password = [] ∧
    validateConfig exampleConfig = .ok () ∧
    validateConfig { exampleConfig with topicBase := [] } ≠ .ok () :=
  ⟨rfl, rfl,
    (validateConfig_accepts_iff exampleConfig).1.mpr (by decide),
    fun h => absurd ((validateConfig_accepts_iff { exampleConfig with topicBase := [] }).1.mp h
      ).2.2.2.2.1 (by decide)⟩

/-- Claim C16, evaluated where the code departs from it: a configuration with
all required fields and an unset fetch interval loads with interval 60 from
`options.json`, but is rejected with "fetch interval must be positive" when it
comes from the YAML file, where `loadConfig` does not set the default. -/
theorem loadConfig_yaml_no_default :
    unsetIntervalConfig.fetchIntervalSeconds = 0 ∧
    validateConfig { unsetIntervalConfig with fetchIntervalSeconds := 60 } = .ok () ∧
    loadConfig (.content (.ok unsetIntervalConfig)) .missing =
      .ok { unsetIntervalConfig with fetchIntervalSeconds := 60 } ∧
    loadConfig .missing (.content (.ok unsetIntervalConfig)) =
      .error (.invalid .fetchIntervalNotPositive) := by
  decide

/-! ## Metadata keys -/

theorem matchWord_word (s w r : Str) (h : matchWord s = some (w, r)) :
    w ≠ [] ∧ ∀ c ∈ w, isWord c = true := by
  unfold matchWord at h
  cases s with
  | nil => cases h
  | cons a t =>
    simp only at h
    split_ifs at h with ha
    simp only [Option.some.injEq, Prod.mk.injEq] at h
    obtain ⟨hw, _⟩ := h
    subst hw
    constructor
    · rw [List.takeWhile_cons_of_pos ha]
      exact List.cons_ne_nil _ _
    · intro c hc
      exact List.mem_takeWhile_imp hc

theorem helpRegex_name_word (line k h : Str) (hm : helpRegex line = some (k, h)) :
    k ≠ [] ∧ ∀ c ∈ k, isWord c = true := by
  unfold helpRegex at hm
  simp only [Option.bind_eq_bind, Option.bind_eq_some] at hm
  obtain ⟨r1, _, r2, _, r3, _, r4, _, ⟨w, r5⟩, h5, r6, _, h7⟩ := hm
  split_ifs at h7
  simp only [Option.some.injEq, Prod.mk.injEq] at h7
  obtain ⟨hw, _⟩ := h7
  subst hw
  exact matchWord_word _ _ _ h5

theorem typeRegex_name_word (line k t : Str) (hm : typeRegex line = some (k, t)) :
    k ≠ [] ∧ ∀ c ∈ k, isWord c = true := by
  unfold typeRegex at hm
  simp only [Option.bind_eq_bind, Option.bind_eq_some] at hm
  obtain ⟨r1, _, r2, _, r3, _, r4, _, ⟨w, r5⟩, h5, r6, _, ⟨w2, r7⟩, _, h8⟩ := hm
  split_ifs at h8
  simp only [Option.some.injEq, Prod.mk.injEq] at h8
  obtain ⟨hw, _⟩ := h8
  subst hw
  exact matchWord_word _ _ _ h5

theorem mem_set {V : Type} (m : GoMap V) (k : Str) (v : V) (e : Str × V)
    (h : e ∈ m.set k v) : e = (k, v) ∨ e ∈ m := by
  unfold GoMap.set at h
  rcases List.mem_cons.mp h with h | h
  · exact Or.inl h
  · exact Or.inr (List.mem_filter.mp h).1

theorem collectLine_keys (P : Str → Prop)
    (hP : ∀ line k x, (helpRegex line = some (k, x) ∨ typeRegex line = some (k, x)) → P k)
    (m : GoMap MetricInfo) (line : Str) (h : ∀ e ∈ m, P e.1) :
    ∀ e ∈ collectLine m line, P e.1 := by
  unfold collectLine
  simp only
  cases hh : helpRegex (trimSpace line) with
  | some r =>
    obtain ⟨k, x⟩ := r
    intro e he
    rcases mem_set _ _ _ _ he with rfl | he
    · exact hP _ _ _ (Or.inl hh)
    · exact h e he
  | none =>
    cases ht : typeRegex (trimSpace line) with
    | some r =>
      obtain ⟨k, x⟩ := r
      intro e he
      rcases mem_set _ _ _ _ he with rfl | he
      · exact hP _ _ _ (Or.inr ht)
      · exact h e he
    | none => exact h

theorem collectMetadata_keys (body : Str) :
    ∀ e ∈ collectMetadata body, e.1 ≠ [] ∧ ∀ c ∈ e.1, isWord c = true := by
  unfold collectMetadata
  suffices hs : ∀ (lines : List Str) (m : GoMap MetricInfo),
      (∀ e ∈ m, e.1 ≠ [] ∧ ∀ c ∈ e.1, isWord c = true) →
      ∀ e ∈ lines.foldl collectLine m, e.1 ≠ [] ∧ ∀ c ∈ e.1, isWord c = true from
    hs _ [] (fun e he => by cases he)
  intro lines
  induction lines with
  | nil => intro m hm; exact hm
  | cons l ls ih =>
    intro m hm
    rw [List.foldl_cons]
    apply ih
    apply collectLine_keys (fun k => k ≠ [] ∧ ∀ c ∈ k, isWord c = true) _ m l hm
    intro line k x hx
    rcases hx with hx | hx
    · exact helpRegex_name_word _ _ _ hx
    · exact typeRegex_name_word _ _ _ hx

theorem get?_eq_none_of_keys {V : Type} (m : GoMap V) (P : Str → Prop) (k : Str)
    (h : ∀ e ∈ m, P e.1) (hk : ¬ P k) : m.get? k = none := by
  unfold GoMap.get?
  induction m with
  | nil => rfl
  | cons e t ih =>
    obtain ⟨a, b⟩ := e
    have hne : (k == a) = false := by
      rw [beq_eq_false_iff_ne]
      intro heq
      exact hk (heq ▸ h (a, b) (List.mem_cons_self _ _))
    rw [List.lookup_cons, hne]
    exact ih (fun e he => h e (List.mem_cons_of_mem _ he))

theorem collectMetadata_get?_non_word (body name : Str) (hbad : ∃ c ∈ name, isWord c = false) :
    (collectMetadata body).get? name = none := by
  apply get?_eq_none_of_keys _ (fun k => k ≠ [] ∧ ∀ c ∈ k, isWord c = true) _
    (collectMetadata_keys body)
  rintro ⟨_, hall⟩
  obtain ⟨c, hc, hw⟩ := hbad
  rw [hall c hc] at hw
  cases hw

theorem mem_of_get?_eq_some {V : Type} (m : GoMap V) (k : Str) (v : V)
    (h : m.get? k = some v) : (k, v) ∈ m := by
  unfold GoMap.get? at h
  induction m with
  | nil => cases h
  | cons e t ih =>
    obtain ⟨a, b⟩ := e
    rw [List.lookup_cons] at h
    by_cases hka : k = a
    · subst hka
      simp only [beq_self_eq_true] at h
      cases h
      exact List.mem_cons_self _ _
    · have hne : (k == a) = false := by simpa using hka
      rw [hne] at h
      exact List.mem_cons_of_mem _ (ih h)

/-- Claim C17, amended: every key of the map returned by `collectMetadata` is a
non-empty string of word characters `[0-9A-Za-z_]`; so a sample whose metric
name has any other character has no metadata entry, whatever the body of the
scrape is: processing that sample makes no discovery publish and leaves
`publishedConfigs` unchanged, only its state is published. Its identifier can
still get a discovery publish and enter `publishedConfigs`, but only through
another sample: every identifier that a call adds to `publishedConfigs` comes
from a sample of the body whose name is a non-empty string of word characters. -/
theorem metadata_keys_are_words (title : Str → Str) (mp : MetricProcessor)
    (body label line name value : Str) (hnl : '\n' ∉ line)
    (hk : ¬(trimSpace line = [] ∨ startsWith (trimSpace line) ['#'] = true))
    (hp : parseMetricLine (trimSpace line) = .ok (name, value))
    (hbad : ∃ c ∈ name, isWord c = false) :
    (∀ e ∈ collectMetadata body, e.1 ≠ [] ∧ ∀ c ∈ e.1, isWord c = true) ∧
    (collectMetadata body).get? name = none ∧
    ((publishMetrics title mp line (collectMetadata body) label).mqttClient.sent =
        mp.mqttClient.sent ++
          [⟨mp.config.topicBase ++ (label ++ "_".toList ++ sanitizeMetricName name) ++
              "/state".toList, 0, false, .text value⟩] ∧
      (publishMetrics title mp line (collectMetadata body) label).publishedConfigs =
        mp.publishedConfigs) ∧
    (∀ pre : Str,
      (publishMetrics title mp (pre ++ '\n' :: line) (collectMetadata body) label).mqttClient.sent =
        (publishMetrics title mp pre (collectMetadata body) label).mqttClient.sent ++
          [⟨mp.config.topicBase ++ (label ++ "_".toList ++ sanitizeMetricName name) ++
              "/state".toList, 0, false, .text value⟩] ∧
      (publishMetrics title mp (pre ++ '\n' :: line) (collectMetadata body) label).publishedConfigs =
        (publishMetrics title mp pre (collectMetadata body) label).publishedConfigs) ∧
    (∀ scrape id : Str,
      (publishMetrics title mp scrape (collectMetadata body) label).isPublished id = true →
      mp.isPublished id = false →
      ∃ l ∈ sampleLines scrape, ∃ n v, parseMetricLine l = .ok (n, v) ∧
        (n ≠ [] ∧ ∀ c ∈ n, isWord c = true) ∧
        id = label ++ "_".toList ++ sanitizeMetricName n) := by
  have hmd := collectMetadata_get?_non_word body name hbad
  have hsingle : ∀ m : MetricProcessor,
      (publishMetrics title m line (collectMetadata body) label).mqttClient.sent =
        m.mqttClient.sent ++
          [⟨m.config.topicBase ++ (label ++ "_".toList ++ sanitizeMetricName name) ++
              "/state".toList, 0, false, .text value⟩] ∧
      (publishMetrics title m line (collectMetadata body) label).publishedConfigs =
        m.publishedConfigs := fun m => by
    rw [publishMetrics_single _ _ _ _ _ hnl, lineStep_sample _ _ _ _ _ _ _ hk hp,
      configStep_of_no_metadata _ _ _ _ _ hmd, stateStep_eq]
    exact ⟨rfl, rfl⟩
  refine ⟨collectMetadata_keys body, hmd, hsingle mp, ?_, ?_⟩
  · intro pre
    rw [publishMetrics_append]
    have := hsingle (publishMetrics title mp pre (collectMetadata body) label)
    rw [publishMetrics_config] at this
    exact this
  · intro scrape id h hnot
    rw [publishMetrics_eq_foldl] at h
    rcases isPublished_foldl_new _ _ _ _ _ _ h with h1 | ⟨l, hl, n, v, info, hs, hpl, hm, hid⟩
    · rw [h1] at hnot; cases hnot
    · refine ⟨trimSpace l, ?_, n, v, hpl, ?_, hid⟩
      · unfold sampleLines
        rw [List.mem_filter]
        exact ⟨List.mem_map_of_mem _ hl, hs⟩
      · exact collectMetadata_keys body _ (mem_of_get?_eq_some _ _ _ hm)

/-- Witness for `metadata_keys_are_words`: the sample `wingbits.altitude-ft 1000`
gets no discovery publish although the body has `HELP` and `TYPE` lines for it. -/
theorem metadata_keys_are_words_witness :
    (∃ c ∈ "wingbits.altitude-ft".toList, isWord c = false) ∧
    (publishMetrics id (exampleProcessor ackReplies) "wingbits.altitude-ft 1000".toList
      (collectMetadata dottedNameBody) "station1".toList).mqttClient.sent =
      [⟨"homeassistant/sensor/station1_wingbits_altitude_ft/state".toList, 0, false,
        .text "1000".toList⟩] ∧
    (publishMetrics id (exampleProcessor ackReplies) "wingbits.altitude-ft 1000".toList
      (collectMetadata dottedNameBody) "station1".toList).publishedConfigs = [] :=
  ⟨by decide,
    (metadata_keys_are_words id (exampleProcessor ackReplies) dottedNameBody "station1".toList
      "wingbits.altitude-ft 1000".toList "wingbits.altitude-ft".toList "1000".toList
      (by decide) (by decide) (by decide) (by decide)).2.2.1.1.trans (by decide),
    (metadata_keys_are_words id (exampleProcessor ackReplies) dottedNameBody "station1".toList
      "wingbits.altitude-ft 1000".toList "wingbits.altitude-ft".toList "1000".toList
      (by decide) (by decide) (by decide) (by decide)).2.2.1.2⟩

/-- Claim C17 as stated fails: the sample `a.b 1` of `collidingNameBody` has a
metric name with the character `.`, which is not a word character, and the
metadata map has no entry for it; yet `processMetrics` on that body for source
`s` publishes a discovery message on `homeassistant/sensor/s_a_b/config`, the
config topic of the identifier `s_a_b` of that sample, and adds `s_a_b` to
`publishedConfigs`, which did not have it: the sample `a_b 2`, which has
metadata, has the same identifier. -/
theorem metadata_keys_counterexample :
    "a.b 1".toList ∈ sampleLines collidingNameBody ∧
    parseMetricLine "a.b 1".toList = .ok ("a.b".toList, "1".toList) ∧
    (∃ c ∈ "a.b".toList, isWord c = false) ∧
    (collectMetadata collidingNameBody).get? "a.b".toList = none ∧
    labeledObjectID "s".toList "a.b".toList = "s_a_b".toList ∧
    (exampleProcessor ackReplies).isPublished (labeledObjectID "s".toList "a.b".toList) = false ∧
    (processMetrics id (exampleProcessor ackReplies) (.response 200 (.ok collidingNameBody))
      "s".toList).isPublished (labeledObjectID "s".toList "a.b".toList) = true ∧
    (processMetrics id (exampleProcessor ackReplies) (.response 200 (.ok collidingNameBody))
      "s".toList).publishedConfigs = [("s_a_b".toList, true)] ∧
    (processMetrics id (exampleProcessor ackReplies) (.response 200 (.ok collidingNameBody))
      "s".toList).mqttClient.sent.map (fun m => (m.topic, m.retained)) =
      [("homeassistant/sensor/s_a_b/state".toList, false),
       ("homeassistant/sensor/s_a_b/config".toList, true),
       ("homeassistant/sensor/s_a_b/state".toList, false)] ∧
    ((processMetrics id (exampleProcessor ackReplies) (.response 200 (.ok collidingNameBody))
      "s".toList).mqttClient.sent.filter
        (isConfigFor exampleConfig (labeledObjectID "s".toList "a.b".toList))).length = 1 := by
  decide

/-! ## The state topic of the discovery record -/

/-- Claim C18: the `state_topic` field of the discovery record that
`publishDiscoveryConfig` publishes for a metric and a source is the topic on
which `publishMetrics` publishes the state of a sample with that metric name
and source; it is `base + "/state"` where the config topic is `base + "/config"`,
with `base = topicBase + sourceLabel + "_" + sanitize(metricName)`. -/
theorem state_topic_of_discovery_record (title : Str → Str) (mp : MetricProcessor)
    (md : GoMap MetricInfo) (label line name value help type : Str) (hnl : '\n' ∉ line)
    (hk : ¬(trimSpace line = [] ∨ startsWith (trimSpace line) ['#'] = true))
    (hp : parseMetricLine (trimSpace line) = .ok (name, value)) :
    (publishDiscoveryConfig title mp name help type label).1.mqttClient.sent =
      mp.mqttClient.sent ++
        [⟨mp.config.topicBase ++ (label ++ "_".toList ++ sanitizeMetricName name) ++
            "/config".toList, 1, true,
          .json (discoveryPayload title mp.config name type label)⟩] ∧
    (discoveryPayload title mp.config name type label).stateTopic =
      mp.config.topicBase ++ (label ++ "_".toList ++ sanitizeMetricName name) ++
        "/state".toList ∧
    (publishMetrics title mp line md label).mqttClient.sent.getLast?.map (fun m => m.topic) =
      some (discoveryPayload title mp.config name type label).stateTopic := by
  refine ⟨by rw [publishDiscoveryConfig_fst]; rfl, rfl, ?_⟩
  rw [publishMetrics_single _ _ _ _ _ hnl, lineStep_sample _ _ _ _ _ _ _ hk hp, stateStep_eq]
  simp [stateMessage, stateTopic, labeledObjectID, configStep_config, discoveryPayload]

/-- Witness for `state_topic_of_discovery_record`: the metric of `exampleBody`
at source `station1`. -/
theorem state_topic_of_discovery_record_witness :
    parseMetricLine (trimSpace "wingbits_gps_fix 1".toList) =
      .ok ("wingbits_gps_fix".toList, "1".toList) ∧
    (discoveryPayload id exampleConfig "wingbits_gps_fix".toList "gauge".toList
      "station1".toList).stateTopic =
      "homeassistant/sensor/station1_wingbits_gps_fix/state".toList ∧
    (publishMetrics id (exampleProcessor ackReplies) "wingbits_gps_fix 1".toList
      (collectMetadata exampleBody) "station1".toList).mqttClient.sent.getLast?.map
        (fun m => m.topic) =
      some "homeassistant/sensor/station1_wingbits_gps_fix/state".toList :=
  ⟨by decide,
    (state_topic_of_discovery_record id (exampleProcessor ackReplies)
      (collectMetadata exampleBody) "station1".toList "wingbits_gps_fix 1".toList
      "wingbits_gps_fix".toList "1".toList [] "gauge".toList
      (by decide) (by decide) (by decide)).2.1.trans (by decide),
    (state_topic_of_discovery_record id (exampleProcessor ackReplies)
      (collectMetadata exampleBody) "station1".toList "wingbits_gps_fix 1".toList
      "wingbits_gps_fix".toList "1".toList [] "gauge".toList
      (by decide) (by decide) (by decide)).2.2.trans (by decide)⟩

end WingbitsToMqtt
